import Mathlib

/-!
Verification of the transactional query-execution layer.

The first half embeds the transaction-demarcation function `tx`, the
concurrent-query guard of `queryRaw`, and the row logic of `queryOne`
from the executor source as deterministic interpreters over scripted
external outcomes.  The second half embeds the named-parameter rewriter
(`parse`, `convertParamValues`, `skipCommentsAndQuotes`).
-/

namespace PgQueryExec

/-- Outcome of a callback or of a statement issued to the database in the
model: success, or an error identified by a numeric id. -/
inductive CbRes where
  | ok : CbRes
  | err : Nat → CbRes
deriving DecidableEq

/-- A registered transaction synchronization.  Each optional callback is
either absent (`none`) or present together with its scripted outcome. -/
structure Sync where
  beforeCommit : Option CbRes
  afterCommit : Option CbRes
  afterCompletion : Option CbRes
deriving DecidableEq

/-- Script of all external outcomes driving one `tx` run: the BEGIN,
the caller's work, the COMMIT, the ROLLBACK, and the registered
synchronizations with their callback outcomes. -/
structure Script where
  beginOutcome : CbRes
  workOutcome : CbRes
  commitOutcome : CbRes
  rollbackOutcome : CbRes
  syncs : List Sync
deriving DecidableEq

/-- `TransactionStatus` from the source (`UNKNOWN`, `COMMITTED`,
`ROLLED_BACK`). -/
inductive TransactionStatus where
  | unknown : TransactionStatus
  | committed : TransactionStatus
  | rolledBack : TransactionStatus
deriving DecidableEq

/-- Observable events emitted during a `tx` run, in program order. -/
inductive Event where
  | connectEvt : Event
  | bindEvt : Event
  | beginStmt : Event
  | workRun : Event
  | beforeCommitRun (i : Nat) : Event
  | commitStmt : Event
  | rollbackStmt : Event
  | releaseClean : Event
  | releaseErrored (e : Nat) : Event
  | unbind : Event
  | afterCommitRun (i : Nat) : Event
  | afterCompletionRun (i : Nat) (e : Option Nat) : Event
deriving DecidableEq

/-- Errors surfaced by `tx` in the model: the nested-transaction guard
error, or an error propagated from work, a statement, or a callback. -/
inductive TxErr where
  | nestedDisallowed : TxErr
  | userErr (e : Nat) : TxErr
deriving DecidableEq

/-- Sequencing of two event-emitting steps: if the first step raised an
error the second never runs, mirroring statement sequencing under
exceptions. -/
def stepSeq (a b : List Event × Option Nat) : List Event × Option Nat :=
  match a with
  | (evs, some e) => (evs, some e)
  | (evs, none) => (evs ++ b.1, b.2)

/-- One event paired with the error (if any) of a scripted outcome. -/
def outRes (ev : Event) (r : CbRes) : List Event × Option Nat :=
  ([ev], match r with | CbRes.ok => none | CbRes.err e => some e)

/-- The `beforeCommit` loop of `tx`: runs each registered `beforeCommit`
in registration order, stopping at the first one that throws. -/
def runBeforeCommits : List Sync → Nat → List Event × Option Nat
  | [], _ => ([], none)
  | s :: rest, i =>
    match s.beforeCommit with
    | none => runBeforeCommits rest (i + 1)
    | some CbRes.ok =>
      let r := runBeforeCommits rest (i + 1)
      (Event.beforeCommitRun i :: r.1, r.2)
    | some (CbRes.err e) => ([Event.beforeCommitRun i], some e)

/-- The `afterCommit` half of one iteration of the `finally` loop of
`tx`: `afterCommit` runs only when the status is committed. -/
def acmStep (status : TransactionStatus) (s : Sync) (i : Nat) : List Event × Option Nat :=
  if status = TransactionStatus.committed then
    match s.afterCommit with
    | none => ([], none)
    | some CbRes.ok => ([Event.afterCommitRun i], none)
    | some (CbRes.err e) => ([Event.afterCommitRun i], some e)
  else ([], none)

/-- The `afterCompletion` half of one iteration of the `finally` loop of
`tx`; the callback receives the causative error (or `none`). -/
def acpStep (txErr : Option Nat) (s : Sync) (i : Nat) : List Event × Option Nat :=
  match s.afterCompletion with
  | none => ([], none)
  | some CbRes.ok => ([Event.afterCompletionRun i txErr], none)
  | some (CbRes.err e) => ([Event.afterCompletionRun i txErr], some e)

/-- The `finally` loop of `tx`: for each synchronization in registration
order, run its `afterCommit` (when committed) and then its
`afterCompletion`; the first callback error aborts the loop and
propagates. -/
def runAfterCallbacks (status : TransactionStatus) (txErr : Option Nat) :
    List Sync → Nat → List Event × Option Nat
  | [], _ => ([], none)
  | s :: rest, i =>
    stepSeq (stepSeq (acmStep status s i) (acpStep txErr s i))
      (runAfterCallbacks status txErr rest (i + 1))

/-- The `try` block of `tx`: BEGIN, run the work, run the `beforeCommit`
synchronizations, COMMIT, then release the connection cleanly.  A `none`
error component means the commit path completed. -/
def tryPhase (s : Script) : List Event × Option Nat :=
  stepSeq (outRes Event.beginStmt s.beginOutcome)
    (stepSeq (outRes Event.workRun s.workOutcome)
      (stepSeq (runBeforeCommits s.syncs 0)
        (stepSeq (outRes Event.commitStmt s.commitOutcome)
          ([Event.releaseClean], none))))

deriving instance DecidableEq for Except

/-- Result of one `tx` run: the emitted events, the settled outcome, and
the final transaction status. -/
structure TxResult where
  events : List Event
  outcome : Except TxErr Unit
  status : TransactionStatus
deriving DecidableEq

/-- Shallow embedding of `tx` from the executor source.  `ambientActive`
models `isTransactionActive()` at entry and `allowNested` models
`opts.allowNestedTransactions`.  The catch block issues a best-effort
ROLLBACK whose own error is ignored, tags the connection release with the
causative error, and the finally block unbinds the ambient context and
then runs the after-callbacks. -/
def tx (ambientActive allowNested : Bool) (s : Script) : TxResult :=
  if ambientActive then
    if allowNested = false then
      { events := [], outcome := Except.error TxErr.nestedDisallowed,
        status := TransactionStatus.unknown }
    else
      { events := [Event.workRun],
        outcome := match s.workOutcome with
          | CbRes.ok => Except.ok ()
          | CbRes.err e => Except.error (TxErr.userErr e),
        status := TransactionStatus.unknown }
  else
    let t := tryPhase s
    match t.2 with
    | none =>
      let f := runAfterCallbacks TransactionStatus.committed none s.syncs 0
      { events := [Event.connectEvt, Event.bindEvt] ++ t.1 ++ [Event.unbind] ++ f.1,
        outcome := match f.2 with
          | none => Except.ok ()
          | some e2 => Except.error (TxErr.userErr e2),
        status := TransactionStatus.committed }
    | some e =>
      let catchEv := match s.rollbackOutcome with
        | CbRes.ok => [Event.rollbackStmt, Event.releaseErrored e]
        | CbRes.err _ => [Event.rollbackStmt, Event.releaseErrored e]
      let f := runAfterCallbacks TransactionStatus.rolledBack (some e) s.syncs 0
      { events := [Event.connectEvt, Event.bindEvt] ++ t.1 ++ catchEv ++ [Event.unbind] ++ f.1,
        outcome := match f.2 with
          | none => Except.error (TxErr.userErr e)
          | some e2 => Except.error (TxErr.userErr e2),
        status := TransactionStatus.rolledBack }

/-- The ambient-binding state after a list of events, starting from
state `b`. -/
def boundAfter (b : Bool) : List Event → Bool
  | [] => b
  | Event.bindEvt :: rest => boundAfter true rest
  | Event.unbind :: rest => boundAfter false rest
  | _ :: rest => boundAfter b rest

/-- Spec-side trace: one `beforeCommitRun` event per synchronization that
registered a `beforeCommit`, in registration order. -/
def beforeCommitTrace : List Sync → Nat → List Event
  | [], _ => []
  | s :: rest, i =>
    (match s.beforeCommit with
      | none => []
      | some _ => [Event.beforeCommitRun i]) ++ beforeCommitTrace rest (i + 1)

/-- Spec-side trace: one `afterCommitRun` event per synchronization that
registered an `afterCommit`, in registration order. -/
def afterCommitTrace : List Sync → Nat → List Event
  | [], _ => []
  | s :: rest, i =>
    (match s.afterCommit with
      | none => []
      | some _ => [Event.afterCommitRun i]) ++ afterCommitTrace rest (i + 1)

/-- Spec-side trace: one `afterCompletionRun` event (carrying the causative
error) per synchronization that registered an `afterCompletion`, in
registration order. -/
def afterCompletionTrace (txErr : Option Nat) : List Sync → Nat → List Event
  | [], _ => []
  | s :: rest, i =>
    (match s.afterCompletion with
      | none => []
      | some _ => [Event.afterCompletionRun i txErr]) ++ afterCompletionTrace txErr rest (i + 1)

/-- Spec-side trace of the post-commit callbacks as the code emits them:
for each synchronization in registration order, its `afterCommit` event
immediately followed by its `afterCompletion` event. -/
def interleavedAfterTrace (txErr : Option Nat) : List Sync → Nat → List Event
  | [], _ => []
  | s :: rest, i =>
    ((match s.afterCommit with
      | none => []
      | some _ => [Event.afterCommitRun i]) ++
     (match s.afterCompletion with
      | none => []
      | some _ => [Event.afterCompletionRun i txErr])) ++ interleavedAfterTrace txErr rest (i + 1)

/-- An optional callback outcome that does not throw. -/
def resOk : Option CbRes → Bool
  | some (CbRes.err _) => false
  | _ => true

/-- All registered `beforeCommit` callbacks of the list succeed. -/
def allBeforeOk (syncs : List Sync) : Bool :=
  syncs.all (fun s => resOk s.beforeCommit)

/-- All registered `afterCommit` and `afterCompletion` callbacks succeed. -/
def allAfterOk (syncs : List Sync) : Bool :=
  syncs.all (fun s => resOk s.afterCommit && resOk s.afterCompletion)

/-- All registered `afterCompletion` callbacks succeed. -/
def allCompletionOk (syncs : List Sync) : Bool :=
  syncs.all (fun s => resOk s.afterCompletion)

/-- Errors raised by the query-level operations in the model. -/
inductive QErr where
  | tooManyRows (n : Nat) : QErr
  | unknownColumn (c : String) : QErr
  | invalidTransform : QErr
  | concurrentUsage : QErr
  | queryFailed (e : Nat) : QErr
deriving DecidableEq

/-- Result of the transactional branch of `queryRaw` in the model: the
settled outcome, whether the statement was actually executed, the
in-flight counter value while the statement ran, and the counter value
after the call settled. -/
structure GuardRes where
  outcome : Except QErr Unit
  executed : Bool
  counterDuring : Option Nat
  counterAfter : Nat
deriving DecidableEq

/-- Shallow embedding of the transactional branch of `queryRaw`: when
concurrent use is not allowed and the in-flight counter is positive the
call fails with the concurrent-usage error before executing; otherwise
the counter is incremented, the statement runs, and the counter is
decremented again in a `finally`, regardless of the statement outcome. -/
def queryRawTxGuard (allowConcurrent : Bool) (numExecuting : Nat) (q : CbRes) : GuardRes :=
  if allowConcurrent = false ∧ 0 < numExecuting then
    { outcome := Except.error QErr.concurrentUsage, executed := false,
      counterDuring := none, counterAfter := numExecuting }
  else
    let n1 := numExecuting + 1
    { outcome := match q with
        | CbRes.ok => Except.ok ()
        | CbRes.err e => Except.error (QErr.queryFailed e),
      executed := true, counterDuring := some n1, counterAfter := n1 - 1 }

/-- Strictly sequential (awaited) execution of a list of statements in one
transaction: each call starts only after the previous one has settled and
updated the in-flight counter. -/
def runSequential (allowConcurrent : Bool) : List CbRes → Nat → List GuardRes × Nat
  | [], n => ([], n)
  | q :: rest, n =>
    let r := queryRawTxGuard allowConcurrent n q
    let t := runSequential allowConcurrent rest r.counterAfter
    (r :: t.1, t.2)

/-- A result row: an association list from column names to values. -/
def Row : Type := List (String × Nat)

instance : DecidableEq Row := by
  unfold Row
  infer_instance

/-- A query result: the rows and the result-schema field names. -/
structure QResult where
  rows : List Row
  fields : List String
deriving DecidableEq

/-- The values `queryOne` can settle with: the null sentinel for a
zero-row result, a whole row, a column value (possibly absent from the
row), or a transform-function result. -/
inductive JsVal where
  | vNull : JsVal
  | vRow (r : Row) : JsVal
  | vNum (n : Nat) : JsVal
  | vUndef : JsVal
deriving DecidableEq

/-- The `transform` argument of `queryOne`: absent, a column name, a row
function, or a value of some other type (invalid). -/
inductive Transform where
  | noneT : Transform
  | colT (c : String) : Transform
  | funcT (f : Row → Nat → JsVal) : Transform
  | invalidT : Transform

/-- Shallow embedding of `queryOne` (after the underlying query has
produced `result`): fail on more than one row before anything else;
validate a string transform against the result schema and an invalid
transform unconditionally, even when zero rows were returned; return the
null sentinel on zero rows otherwise. -/
def queryOne (result : QResult) (t : Transform) : Except QErr JsVal :=
  if result.rows.length > 1 then Except.error (QErr.tooManyRows result.rows.length)
  else
    match t with
    | Transform.noneT =>
      match result.rows with
      | [] => Except.ok JsVal.vNull
      | r :: _ => Except.ok (JsVal.vRow r)
    | Transform.colT c =>
      if (result.fields.contains c) = false then Except.error (QErr.unknownColumn c)
      else
        match result.rows with
        | [] => Except.ok JsVal.vNull
        | r :: _ =>
          Except.ok (match r.lookup c with
            | some v => JsVal.vNum v
            | none => JsVal.vUndef)
    | Transform.funcT f =>
      match result.rows with
      | [] => Except.ok JsVal.vNull
      | r :: _ => Except.ok (f r 1)
    | Transform.invalidT => Except.error QErr.invalidTransform

theorem runBeforeCommits_ok (syncs : List Sync) (i : Nat)
    (h : allBeforeOk syncs = true) :
    runBeforeCommits syncs i = (beforeCommitTrace syncs i, none) := by
  induction syncs generalizing i with
  | nil => rfl
  | cons s rest ih =>
    simp only [allBeforeOk, List.all_cons, Bool.and_eq_true] at h
    have hrest : allBeforeOk rest = true := h.2
    cases hb : s.beforeCommit with
    | none =>
      simp [runBeforeCommits, beforeCommitTrace, hb, ih _ hrest]
    | some r =>
      cases r with
      | ok => simp [runBeforeCommits, beforeCommitTrace, hb, ih _ hrest]
      | err e =>
        exfalso
        have := h.1
        rw [hb] at this
        simp [resOk] at this

theorem runAfterCallbacks_committed_ok (syncs : List Sync) (txErr : Option Nat) (i : Nat)
    (h : allAfterOk syncs = true) :
    runAfterCallbacks TransactionStatus.committed txErr syncs i =
      (interleavedAfterTrace txErr syncs i, none) := by
  induction syncs generalizing i with
  | nil => rfl
  | cons s rest ih =>
    simp only [allAfterOk, List.all_cons, Bool.and_eq_true] at h
    have hrest : allAfterOk rest = true := h.2
    have hcm := h.1.1
    have hcp := h.1.2
    rw [runAfterCallbacks, ih _ hrest]
    cases hb : s.afterCommit with
    | none =>
      cases hc : s.afterCompletion with
      | none => simp [acmStep, acpStep, stepSeq, interleavedAfterTrace, hb, hc]
      | some r =>
        cases r with
        | ok => simp [acmStep, acpStep, stepSeq, interleavedAfterTrace, hb, hc]
        | err e => rw [hc] at hcp; simp [resOk] at hcp
    | some r =>
      cases r with
      | ok =>
        cases hc : s.afterCompletion with
        | none => simp [acmStep, acpStep, stepSeq, interleavedAfterTrace, hb, hc]
        | some r2 =>
          cases r2 with
          | ok => simp [acmStep, acpStep, stepSeq, interleavedAfterTrace, hb, hc]
          | err e => rw [hc] at hcp; simp [resOk] at hcp
      | err e => rw [hb] at hcm; simp [resOk] at hcm

theorem runAfterCallbacks_rolledBack_ok (syncs : List Sync) (txErr : Option Nat) (i : Nat)
    (h : allCompletionOk syncs = true) :
    runAfterCallbacks TransactionStatus.rolledBack txErr syncs i =
      (afterCompletionTrace txErr syncs i, none) := by
  induction syncs generalizing i with
  | nil => rfl
  | cons s rest ih =>
    simp only [allCompletionOk, List.all_cons, Bool.and_eq_true] at h
    have hrest : allCompletionOk rest = true := h.2
    have hcp := h.1
    rw [runAfterCallbacks, ih _ hrest]
    cases hc : s.afterCompletion with
    | none => simp [acmStep, acpStep, stepSeq, afterCompletionTrace, hc]
    | some r =>
      cases r with
      | ok => simp [acmStep, acpStep, stepSeq, afterCompletionTrace, hc]
      | err e => rw [hc] at hcp; simp [resOk] at hcp

theorem mem_runBeforeCommits (syncs : List Sync) (i : Nat) (e : Event)
    (h : e ∈ (runBeforeCommits syncs i).1) : ∃ k, e = Event.beforeCommitRun k := by
  induction syncs generalizing i with
  | nil => simp [runBeforeCommits] at h
  | cons s rest ih =>
    cases hb : s.beforeCommit with
    | none =>
      rw [runBeforeCommits, hb] at h
      exact ih _ h
    | some r =>
      cases r with
      | ok =>
        rw [runBeforeCommits, hb] at h
        rcases List.mem_cons.mp h with h1 | h2
        · exact ⟨i, h1⟩
        · exact ih _ h2
      | err e2 =>
        rw [runBeforeCommits, hb] at h
        rcases List.mem_singleton.mp h with h1
        exact ⟨i, h1⟩

theorem mem_stepSeq (a b : List Event × Option Nat) (e : Event)
    (h : e ∈ (stepSeq a b).1) : e ∈ a.1 ∨ e ∈ b.1 := by
  rcases a with ⟨evs, oe⟩
  cases oe with
  | none =>
    rcases List.mem_append.mp h with h1 | h2
    · exact Or.inl h1
    · exact Or.inr h2
  | some x => exact Or.inl h

theorem mem_acmStep (st : TransactionStatus) (s : Sync) (i : Nat) (e : Event)
    (h : e ∈ (acmStep st s i).1) : e = Event.afterCommitRun i := by
  by_cases hst : st = TransactionStatus.committed
  · cases hb : s.afterCommit with
    | none => simp [acmStep, hst, hb] at h
    | some r =>
      cases r with
      | ok => simpa [acmStep, hst, hb] using h
      | err e2 => simpa [acmStep, hst, hb] using h
  · simp [acmStep, hst] at h

theorem mem_acpStep (txErr : Option Nat) (s : Sync) (i : Nat) (e : Event)
    (h : e ∈ (acpStep txErr s i).1) : e = Event.afterCompletionRun i txErr := by
  cases hb : s.afterCompletion with
  | none => simp [acpStep, hb] at h
  | some r =>
    cases r with
    | ok => simpa [acpStep, hb] using h
    | err e2 => simpa [acpStep, hb] using h

theorem mem_runAfterCallbacks (st : TransactionStatus) (txErr : Option Nat)
    (syncs : List Sync) (i : Nat) (e : Event)
    (h : e ∈ (runAfterCallbacks st txErr syncs i).1) :
    (∃ k, e = Event.afterCommitRun k) ∨ (∃ k o, e = Event.afterCompletionRun k o) := by
  induction syncs generalizing i with
  | nil => simp [runAfterCallbacks] at h
  | cons s rest ih =>
    rw [runAfterCallbacks] at h
    rcases mem_stepSeq _ _ _ h with h1 | h2
    · rcases mem_stepSeq _ _ _ h1 with h3 | h4
      · exact Or.inl ⟨i, mem_acmStep _ _ _ _ h3⟩
      · exact Or.inr ⟨i, txErr, mem_acpStep _ _ _ _ h4⟩
    · exact ih _ h2

theorem boundAfter_append (b : Bool) (l1 l2 : List Event) :
    boundAfter b (l1 ++ l2) = boundAfter (boundAfter b l1) l2 := by
  induction l1 generalizing b with
  | nil => rfl
  | cons e rest ih =>
    cases e <;> simp [boundAfter, ih]

theorem boundAfter_of_neutral (b : Bool) (l : List Event)
    (h : ∀ e ∈ l, e ≠ Event.bindEvt ∧ e ≠ Event.unbind) : boundAfter b l = b := by
  induction l with
  | nil => rfl
  | cons e rest ih =>
    have he := h e (List.mem_cons_self e rest)
    have hr : ∀ x ∈ rest, x ≠ Event.bindEvt ∧ x ≠ Event.unbind :=
      fun x hx => h x (List.mem_cons_of_mem _ hx)
    cases e with
    | bindEvt => exact absurd rfl he.1
    | unbind => exact absurd rfl he.2
    | connectEvt => exact ih hr
    | beginStmt => exact ih hr
    | workRun => exact ih hr
    | beforeCommitRun i => exact ih hr
    | commitStmt => exact ih hr
    | rollbackStmt => exact ih hr
    | releaseClean => exact ih hr
    | releaseErrored e2 => exact ih hr
    | afterCommitRun i => exact ih hr
    | afterCompletionRun i o => exact ih hr

theorem mem_outRes (ev : Event) (r : CbRes) (e : Event)
    (h : e ∈ (outRes ev r).1) : e = ev := by
  simpa [outRes] using h

theorem mem_tryPhase (s : Script) (e : Event) (h : e ∈ (tryPhase s).1) :
    e ≠ Event.bindEvt ∧ e ≠ Event.unbind := by
  unfold tryPhase at h
  rcases mem_stepSeq _ _ _ h with h1 | h
  · rw [mem_outRes _ _ _ h1]; exact ⟨by simp, by simp⟩
  rcases mem_stepSeq _ _ _ h with h1 | h
  · rw [mem_outRes _ _ _ h1]; exact ⟨by simp, by simp⟩
  rcases mem_stepSeq _ _ _ h with h1 | h
  · rcases mem_runBeforeCommits _ _ _ h1 with ⟨k, hk⟩
    rw [hk]; exact ⟨by simp, by simp⟩
  rcases mem_stepSeq _ _ _ h with h1 | h
  · rw [mem_outRes _ _ _ h1]; exact ⟨by simp, by simp⟩
  · rw [List.mem_singleton.mp h]
    exact ⟨by simp, by simp⟩

theorem runAfterCallbacks_neutral (st : TransactionStatus) (te : Option Nat)
    (syncs : List Sync) (i : Nat) (b : Bool) :
    boundAfter b (runAfterCallbacks st te syncs i).1 = b := by
  refine boundAfter_of_neutral b _ (fun e he => ?_)
  rcases mem_runAfterCallbacks _ _ _ _ _ he with ⟨k, hk⟩ | ⟨k, o, hk⟩ <;>
    rw [hk] <;> exact ⟨by simp, by simp⟩

/-- C3: every `tx` call that created an ambient binding removes it again
before settling: the trace always contains the unbind event, and folding
the bind/unbind events of the trace from the unbound state ends unbound,
on the commit path, the work-failure path, the beforeCommit-failure path,
and the paths where an after-completion callback fails. -/
theorem claim_C3_ambient_unbound (an : Bool) (s : Script) :
    Event.unbind ∈ (tx false an s).events ∧
    boundAfter false ((tx false an s).events) = false := by
  have hpre : ∀ (mid : List Event), (∀ e ∈ mid, e ≠ Event.bindEvt ∧ e ≠ Event.unbind) →
      ∀ (tail : List Event), boundAfter false tail = false →
      boundAfter false ([Event.connectEvt, Event.bindEvt] ++ (tryPhase s).1 ++ mid
        ++ [Event.unbind] ++ tail) = false := by
    intro mid hmid tail htail
    rw [boundAfter_append, boundAfter_append, boundAfter_append, boundAfter_append]
    have h1 : boundAfter false [Event.connectEvt, Event.bindEvt] = true := rfl
    rw [h1, boundAfter_of_neutral _ _ (fun e he => mem_tryPhase s e he),
      boundAfter_of_neutral _ _ hmid]
    exact htail
  cases ht : (tryPhase s).2 with
  | none =>
    constructor
    · simp [tx, ht]
    · have := hpre [] (by intro e he; simp at he) _
        (runAfterCallbacks_neutral TransactionStatus.committed none s.syncs 0 false)
      simpa [tx, ht] using this
  | some e =>
    constructor
    · cases hr : s.rollbackOutcome <;> simp [tx, ht, hr]
    · have := hpre [Event.rollbackStmt, Event.releaseErrored e]
        (by
          intro x hx
          simp only [List.mem_cons, List.not_mem_nil, or_false] at hx
          rcases hx with hx | hx <;> (rw [hx]; exact ⟨by simp, by simp⟩)) _
        (runAfterCallbacks_neutral TransactionStatus.rolledBack (some e) s.syncs 0 false)
      cases hr : s.rollbackOutcome <;> simpa [tx, ht, hr] using this

/-- C4: with concurrent-query protection enabled, a `queryRaw` arriving
while the in-flight counter is positive fails with the concurrent-usage
error without executing; when the guard passes, the counter is `n + 1`
while the statement runs and back to `n` afterwards regardless of the
statement outcome; and strictly sequential queries from an idle counter
all execute and never hit the guard. -/
theorem claim_C4_concurrent_guard :
    (∀ (n : Nat) (q : CbRes), 0 < n →
      queryRawTxGuard false n q =
        { outcome := Except.error QErr.concurrentUsage, executed := false,
          counterDuring := none, counterAfter := n })
    ∧ (∀ (n : Nat) (q : CbRes),
        (queryRawTxGuard false n q).executed = true →
        (queryRawTxGuard false n q).counterDuring = some (n + 1)
        ∧ (queryRawTxGuard false n q).counterAfter = n)
    ∧ (∀ qs : List CbRes,
        (∀ r ∈ (runSequential false qs 0).1,
          r.executed = true ∧ r.outcome ≠ Except.error QErr.concurrentUsage)
        ∧ (runSequential false qs 0).2 = 0) := by
  refine ⟨?_, ?_, ?_⟩
  · intro n q hn
    simp [queryRawTxGuard, hn]
  · intro n q hx
    by_cases hn : 0 < n
    · simp [queryRawTxGuard, hn] at hx
    · simp [queryRawTxGuard, hn]
  · intro qs
    have key : ∀ (l : List CbRes),
        (∀ r ∈ (runSequential false l 0).1,
          r.executed = true ∧ r.outcome ≠ Except.error QErr.concurrentUsage)
        ∧ (runSequential false l 0).2 = 0 := by
      intro l
      induction l with
      | nil => exact ⟨by intro r hr; simp [runSequential] at hr, rfl⟩
      | cons q rest ih =>
        have hg : queryRawTxGuard false 0 q =
            { outcome := (match q with
                | CbRes.ok => Except.ok ()
                | CbRes.err e => Except.error (QErr.queryFailed e)),
              executed := true, counterDuring := some 1, counterAfter := 0 } := by
          cases q <;> simp [queryRawTxGuard]
        constructor
        · intro r hr
          rw [runSequential] at hr
          rcases List.mem_cons.mp hr with h1 | h2

          · rw [h1, hg]
            refine ⟨rfl, ?_⟩
            cases q <;> simp
          · rw [hg] at h2
            exact (ih).1 r h2
        · rw [runSequential, hg]
          exact (ih).2
    exact key qs

/-- C5: a nested `tx` call fails with the nested-transaction error without
running the supplied work by default; with nesting allowed it runs the
work in place: it emits no connection lease, no ambient bind, and no
begin/commit/rollback statement of its own, and passes the work outcome
through. -/
theorem claim_C5_nested (s : Script) :
    (tx true false s).outcome = Except.error TxErr.nestedDisallowed
    ∧ Event.workRun ∉ (tx true false s).events
    ∧ (tx true true s).events = [Event.workRun]
    ∧ Event.connectEvt ∉ (tx true true s).events
    ∧ Event.bindEvt ∉ (tx true true s).events
    ∧ Event.beginStmt ∉ (tx true true s).events
    ∧ Event.commitStmt ∉ (tx true true s).events
    ∧ Event.rollbackStmt ∉ (tx true true s).events
    ∧ (s.workOutcome = CbRes.ok → (tx true true s).outcome = Except.ok ())
    ∧ (∀ e, s.workOutcome = CbRes.err e →
        (tx true true s).outcome = Except.error (TxErr.userErr e)) := by
  refine ⟨rfl, by simp [tx], rfl, by simp [tx], by simp [tx], by simp [tx], by simp [tx],
    by simp [tx], ?_, ?_⟩
  · intro h; simp [tx, h]
  · intro e h; simp [tx, h]

/-- A concrete all-success script with no synchronizations. -/
def plainScript : Script :=
  { beginOutcome := CbRes.ok, workOutcome := CbRes.ok,
    commitOutcome := CbRes.ok, rollbackOutcome := CbRes.ok, syncs := [] }

/-- C5 witness: concrete nested calls, one disallowed and one flattened. -/
theorem claim_C5_nested_witness :
    (tx true false plainScript).outcome = Except.error TxErr.nestedDisallowed
    ∧ (tx true true plainScript).outcome = Except.ok () := by
  have h := claim_C5_nested plainScript
  exact ⟨h.1, h.2.2.2.2.2.2.2.2.1 rfl⟩

/-- C4 witness: a second query arriving with one query in flight fails the
guard at a concrete counter value. -/
theorem claim_C4_concurrent_guard_witness :
    0 < 1 ∧ queryRawTxGuard false 1 CbRes.ok =
      { outcome := Except.error QErr.concurrentUsage, executed := false,
        counterDuring := none, counterAfter := 1 } :=
  ⟨by decide, claim_C4_concurrent_guard.1 1 CbRes.ok (by decide)⟩

/-- C9: `queryOne` fails with the too-many-rows error whenever the result
has more than one row, for every transform; on a zero-row result it
returns the null sentinel, but a string transform naming an absent column
still fails with the unknown-column error and an invalid transform still
fails with the invalid-transform error. -/
theorem claim_C9_queryOne (result : QResult) (t : Transform) (c : String)
    (f : Row → Nat → JsVal) :
    (result.rows.length > 1 →
      queryOne result t = Except.error (QErr.tooManyRows result.rows.length))
    ∧ (result.rows = [] →
        queryOne result Transform.noneT = Except.ok JsVal.vNull
        ∧ (result.fields.contains c = false →
            queryOne result (Transform.colT c) = Except.error (QErr.unknownColumn c))
        ∧ (result.fields.contains c = true →
            queryOne result (Transform.colT c) = Except.ok JsVal.vNull)
        ∧ queryOne result (Transform.funcT f) = Except.ok JsVal.vNull
        ∧ queryOne result Transform.invalidT = Except.error QErr.invalidTransform) := by
  constructor
  · intro h
    cases t <;> simp [queryOne, h]
  · intro h
    refine ⟨by simp [queryOne, h], fun hc => by simp [queryOne, h]; simpa using hc,
      fun hc => by simp [queryOne, h]; simpa using hc, by simp [queryOne, h],
      by simp [queryOne, h]⟩

/-- A concrete two-row result. -/
def qres2 : QResult := { rows := [[("a", 1)], [("a", 2)]], fields := ["a"] }

/-- A concrete zero-row result whose schema has the single column `a`. -/
def qres0 : QResult := { rows := [], fields := ["a"] }

/-- C9 witness: too-many-rows on a concrete two-row result under an
invalid transform, and unknown-column on a concrete zero-row result. -/
theorem claim_C9_queryOne_witness :
    queryOne qres2 Transform.invalidT = Except.error (QErr.tooManyRows qres2.rows.length)
    ∧ queryOne qres0 (Transform.colT "b") = Except.error (QErr.unknownColumn "b") :=
  ⟨(claim_C9_queryOne qres2 Transform.invalidT "b" (fun _ _ => JsVal.vNull)).1 (by decide),
   ((claim_C9_queryOne qres0 Transform.invalidT "b" (fun _ _ => JsVal.vNull)).2 rfl).2.1
     (by decide)⟩

/-- C1 amended: on the success path `tx` runs the `beforeCommit`s in
order, commits, marks the transaction committed, releases the connection
cleanly, unbinds, and then runs — for each synchronization in
registration order — its `afterCommit` followed by its `afterCompletion`
(interleaved per synchronization, not grouped by phase); a `beforeCommit`
failure suppresses the commit and takes the rollback path. -/
theorem claim_C1_success_callbacks (s : Script)
    (hb : s.beginOutcome = CbRes.ok) (hw : s.workOutcome = CbRes.ok) :
    (allBeforeOk s.syncs = true → s.commitOutcome = CbRes.ok → allAfterOk s.syncs = true →
      tx false false s =
        { events := [Event.connectEvt, Event.bindEvt, Event.beginStmt, Event.workRun]
            ++ beforeCommitTrace s.syncs 0
            ++ [Event.commitStmt, Event.releaseClean, Event.unbind]
            ++ interleavedAfterTrace none s.syncs 0,
          outcome := Except.ok (), status := TransactionStatus.committed })
    ∧ (∀ e, (runBeforeCommits s.syncs 0).2 = some e →
        Event.commitStmt ∉ (tx false false s).events
        ∧ (tx false false s).status = TransactionStatus.rolledBack
        ∧ Event.rollbackStmt ∈ (tx false false s).events
        ∧ Event.releaseErrored e ∈ (tx false false s).events) := by
  constructor
  · intro hbok hc hafter
    have ht : tryPhase s =
        ([Event.beginStmt, Event.workRun] ++ beforeCommitTrace s.syncs 0
          ++ [Event.commitStmt, Event.releaseClean], none) := by
      simp [tryPhase, stepSeq, outRes, hb, hw, hc, runBeforeCommits_ok s.syncs 0 hbok]
    simp [tx, ht, runAfterCallbacks_committed_ok s.syncs none 0 hafter]
  · intro e he
    have ht : tryPhase s = ([Event.beginStmt, Event.workRun]
        ++ (runBeforeCommits s.syncs 0).1, some e) := by
      simp [tryPhase, stepSeq, outRes, hb, hw]
      rcases hrun : runBeforeCommits s.syncs 0 with ⟨evs, oe⟩
      rw [hrun] at he
      simp at he
      simp [he, stepSeq]
    refine ⟨?_, ?_, ?_, ?_⟩
    · intro hmem
      cases hr : s.rollbackOutcome <;> rw [tx] at hmem <;> simp [ht, hr] at hmem <;>
        rcases hmem with hmem | hmem
      · exact absurd (mem_runBeforeCommits _ _ _ hmem) (by simp)
      · rcases mem_runAfterCallbacks _ _ _ _ _ hmem with ⟨k, hk⟩ | ⟨k, o, hk⟩ <;> simp at hk
      · exact absurd (mem_runBeforeCommits _ _ _ hmem) (by simp)
      · rcases mem_runAfterCallbacks _ _ _ _ _ hmem with ⟨k, hk⟩ | ⟨k, o, hk⟩ <;> simp at hk
    · cases hr : s.rollbackOutcome <;> simp [tx, ht, hr]
    · cases hr : s.rollbackOutcome <;> simp [tx, ht, hr]
    · cases hr : s.rollbackOutcome <;> simp [tx, ht, hr]

/-- The script of the C1 counterexample: a committing transaction with two
synchronizations, each registering both an `afterCommit` and an
`afterCompletion`. -/
def cexScript : Script :=
  { beginOutcome := CbRes.ok, workOutcome := CbRes.ok, commitOutcome := CbRes.ok,
    rollbackOutcome := CbRes.ok,
    syncs := [{ beforeCommit := none, afterCommit := some CbRes.ok,
                afterCompletion := some CbRes.ok },
              { beforeCommit := none, afterCommit := some CbRes.ok,
                afterCompletion := some CbRes.ok }] }

/-- C1 counterexample: with two synchronizations both registering
`afterCommit` and `afterCompletion`, the code interleaves the callbacks
per synchronization, so the trace differs from the claimed order of every
`afterCommit` followed by every `afterCompletion`. -/
theorem claim_C1_counterexample :
    (tx false false cexScript).events =
      [Event.connectEvt, Event.bindEvt, Event.beginStmt, Event.workRun, Event.commitStmt,
       Event.releaseClean, Event.unbind, Event.afterCommitRun 0,
       Event.afterCompletionRun 0 none, Event.afterCommitRun 1,
       Event.afterCompletionRun 1 none]
    ∧ ¬ ((tx false false cexScript).events =
      [Event.connectEvt, Event.bindEvt, Event.beginStmt, Event.workRun, Event.commitStmt,
       Event.releaseClean, Event.unbind]
        ++ (afterCommitTrace cexScript.syncs 0
            ++ afterCompletionTrace none cexScript.syncs 0)) := by
  decide

/-- C1 witness: the amended success-path theorem applied to the concrete
two-synchronization script. -/
theorem claim_C1_success_callbacks_witness :
    allBeforeOk cexScript.syncs = true ∧ allAfterOk cexScript.syncs = true
    ∧ tx false false cexScript =
      { events := [Event.connectEvt, Event.bindEvt, Event.beginStmt, Event.workRun]
          ++ beforeCommitTrace cexScript.syncs 0
          ++ [Event.commitStmt, Event.releaseClean, Event.unbind]
          ++ interleavedAfterTrace none cexScript.syncs 0,
        outcome := Except.ok (), status := TransactionStatus.committed } :=
  ⟨by decide, by decide,
   (claim_C1_success_callbacks cexScript rfl rfl).1 (by decide) rfl (by decide)⟩

/-- C2: when the work fails, `tx` takes the rollback path: the result does
not depend on the outcome of the ROLLBACK statement (rollback errors are
swallowed), the status becomes rolled-back, the rollback is issued, the
connection release is tagged with the original error, the context is
unbound, every registered `afterCompletion` runs in order with the
original error, and the original error is rethrown. -/
theorem claim_C2_rollback_path (s : Script) (e : Nat)
    (hb : s.beginOutcome = CbRes.ok) (hw : s.workOutcome = CbRes.err e) :
    (∀ r, tx false false { s with rollbackOutcome := r } = tx false false s)
    ∧ (tx false false s).status = TransactionStatus.rolledBack
    ∧ Event.rollbackStmt ∈ (tx false false s).events
    ∧ Event.releaseErrored e ∈ (tx false false s).events
    ∧ Event.unbind ∈ (tx false false s).events
    ∧ (allCompletionOk s.syncs = true →
        (tx false false s).events =
          [Event.connectEvt, Event.bindEvt, Event.beginStmt, Event.workRun,
           Event.rollbackStmt, Event.releaseErrored e, Event.unbind]
            ++ afterCompletionTrace (some e) s.syncs 0
        ∧ (tx false false s).outcome = Except.error (TxErr.userErr e)) := by
  have ht : tryPhase s = ([Event.beginStmt, Event.workRun], some e) := by
    simp [tryPhase, stepSeq, outRes, hb, hw]
  refine ⟨?_, ?_, ?_, ?_, ?_, ?_⟩
  · intro r
    have ht' : tryPhase { s with rollbackOutcome := r } =
        ([Event.beginStmt, Event.workRun], some e) := by
      simp [tryPhase, stepSeq, outRes, hb, hw]
    cases r <;> cases hr : s.rollbackOutcome <;> simp [tx, ht, ht', hr]
  · cases hr : s.rollbackOutcome <;> simp [tx, ht, hr]
  · cases hr : s.rollbackOutcome <;> simp [tx, ht, hr]
  · cases hr : s.rollbackOutcome <;> simp [tx, ht, hr]
  · cases hr : s.rollbackOutcome <;> simp [tx, ht, hr]
  · intro hcomp
    have hf := runAfterCallbacks_rolledBack_ok s.syncs (some e) 0 hcomp
    constructor
    · cases hr : s.rollbackOutcome <;> simp [tx, ht, hr, hf]
    · cases hr : s.rollbackOutcome <;> simp [tx, ht, hr, hf]

/-- The script of the C2 witness: failing work, a failing ROLLBACK whose
error must be swallowed, and one `afterCompletion` synchronization. -/
def c2Script : Script :=
  { beginOutcome := CbRes.ok, workOutcome := CbRes.err 7, commitOutcome := CbRes.ok,
    rollbackOutcome := CbRes.err 9,
    syncs := [{ beforeCommit := none, afterCommit := none,
                afterCompletion := some CbRes.ok }] }

/-- C2 witness: concrete failing work with a failing rollback; the
original error 7 is rethrown, not the rollback error 9. -/
theorem claim_C2_rollback_path_witness :
    (tx false false c2Script).status = TransactionStatus.rolledBack
    ∧ allCompletionOk c2Script.syncs = true
    ∧ (tx false false c2Script).outcome = Except.error (TxErr.userErr 7) :=
  ⟨(claim_C2_rollback_path c2Script 7 rfl rfl).2.1, by decide,
   (((claim_C2_rollback_path c2Script 7 rfl rfl).2.2.2.2.2) (by decide)).2⟩

/-! ## Named-parameter rewriter

Embedding of `named-params.ts` over `List Char`.  The source loops are
written with an explicit fuel argument that strictly exceeds the number
of loop iterations possible on the given input (each iteration advances
the scan position, which is bounded by the input length), so the
embedded functions are structurally recursive and fully evaluable. -/

/-- `PARAMETER_SEPARATORS` from the source. -/
def PARAMETER_SEPARATORS : List Char :=
  ['"', '\'', ':', '&', ',', ';', '(', ')', '|', '=', '+', '-', '*', '%', '/', '\\',
   '<', '>', '^']

/-- The characters matched by the `\s` class for the ASCII inputs the
rewriter receives. -/
def isSpaceChar (c : Char) : Bool :=
  c = ' ' || c = '\t' || c = '\n' || c = '\r' || c = '\x0b' || c = '\x0c'

/-- `isParamSeparator` from the source. -/
def isParamSeparator (c : Char) : Bool :=
  isSpaceChar c || PARAMETER_SEPARATORS.contains c

/-- One skip region: its start and stop delimiters. -/
structure Skip where
  start : List Char
  stop : List Char

/-- `SKIPS` from the source: single-quoted strings, double-quoted
identifiers, line comments, block comments. -/
def SKIPS : List Skip :=
  [{ start := ['\''], stop := ['\''] },
   { start := ['"'], stop := ['"'] },
   { start := ['-', '-'], stop := ['\n'] },
   { start := ['/', '*'], stop := ['*', '/'] }]

/-- `sql[j]` as an optional lookup. -/
def charAt (sql : List Char) (j : Nat) : Option Char :=
  sql.get? j

/-- `sql.substr(pos, pat.length) === pat`: the pattern occurs in full at
`pos` (a truncated tail never matches a nonempty pattern). -/
def matchesAt (sql : List Char) (pos : Nat) (pat : List Char) : Bool :=
  decide (((sql.drop pos).take pat.length) = pat)

/-- The inner `while` of `skipCommentsAndQuotes`: advance from `p` until
the stop delimiter occurs; `none` when the end of input is reached first
(the unterminated case). -/
def scanStopF (sql stop : List Char) : Nat → Nat → Option Nat
  | 0, _ => none
  | fuel + 1, p =>
    if sql.length ≤ p then none
    else if matchesAt sql p stop then some p
    else scanStopF sql stop fuel (p + 1)

/-- The `for` loop of `skipCommentsAndQuotes` over the skip list: a
matching start delimiter advances past the corresponding stop delimiter
and the remaining skips are tried from there; an unterminated region
returns the input length immediately. -/
def skipGo (sql : List Char) : List Skip → Nat → Nat
  | [], pos => pos
  | sk :: rest, pos =>
    if matchesAt sql pos sk.start then
      match scanStopF sql sk.stop (sql.length + 1) (pos + sk.start.length) with
      | none => sql.length
      | some q => skipGo sql rest (q + sk.stop.length)
    else skipGo sql rest pos

/-- `skipCommentsAndQuotes` from the source. -/
def skipCommentsAndQuotes (sql : List Char) (position : Nat) : Nat :=
  skipGo sql SKIPS position

/-- The fixpoint loop at the top of the scanner's main loop: re-apply
`skipCommentsAndQuotes` until it no longer advances or the end of input
is reached. -/
def skipFixF (sql : List Char) : Nat → Nat → Nat
  | 0, i => i
  | fuel + 1, i =>
    if sql.length ≤ i then i
    else
      if i < skipCommentsAndQuotes sql i then
        skipFixF sql fuel (skipCommentsAndQuotes sql i)
      else i

/-- Errors raised by the rewriter. -/
inductive ParseErr where
  | invalidNameChar (pos : Nat) : ParseErr
  | nonTerminated (pos : Nat) : ParseErr
  | mixedNumbered (pos : Nat) : ParseErr
  | mixedTypes : ParseErr
  | noValue (name : List Char) : ParseErr
deriving DecidableEq

/-- The brace-marker loop of `parse`: starting just past the `:` of
`:{`, advance until the closing `}`; a name character `:` or `{` is a
syntax error; reaching the end of input returns the length, which the
caller turns into the non-terminated error. -/
def braceScanF (sql : List Char) : Nat → Nat → Except ParseErr Nat
  | 0, j => Except.ok j
  | fuel + 1, j =>
    if sql.length ≤ j then Except.ok j
    else if charAt sql j = some '}' then Except.ok j
    else if charAt sql (j + 1) = some ':' ∨ charAt sql (j + 1) = some '{' then
      Except.error (ParseErr.invalidNameChar (j + 1))
    else braceScanF sql fuel (j + 1)

/-- The plain-marker loop of `parse`: advance until a parameter
separator or the end of input. -/
def sepScanF (sql : List Char) : Nat → Nat → Nat
  | 0, j => j
  | fuel + 1, j =>
    match charAt sql j with
    | none => j
    | some c => if isParamSeparator c then j else sepScanF sql fuel (j + 1)

/-- The four raw marker styles: `:name`, `&name`, `$name`, `:{name}`. -/
inductive PType where
  | colon : PType
  | amp : PType
  | dollar : PType
  | braces : PType
deriving DecidableEq

/-- The marker style recorded for a plain marker, from its lead
character. -/
def markerType (c : Char) : PType :=
  if c = ':' then PType.colon else if c = '&' then PType.amp else PType.dollar

/-- A detected marker occurrence: its name, its span in the statement,
and its style. -/
structure RawParam where
  name : List Char
  startPos : Nat
  endPos : Nat
  ptype : PType
deriving DecidableEq

/-- The main scan loop of `parse`: skip comment/quote regions to a
fixpoint, then recognize `::` casts, brace markers, and plain markers,
collecting the raw marker occurrences in order. -/
def scanLoopF (sql : List Char) : Nat → Nat → Except ParseErr (List RawParam)
  | 0, _ => Except.ok []
  | fuel + 1, i =>
    if sql.length ≤ i then Except.ok []
    else
      let i2 := skipFixF sql (sql.length + 1) i
      match charAt sql i2 with
      | none => Except.ok []
      | some c =>
        if c = ':' ∨ c = '&' ∨ c = '$' then
          if matchesAt sql i2 [':', ':'] then
            scanLoopF sql fuel (i2 + 2)
          else if matchesAt sql i2 [':', '{'] then
            match braceScanF sql (sql.length + 1) (i2 + 1) with
            | Except.error e => Except.error e
            | Except.ok j =>
              if sql.length ≤ j then Except.error (ParseErr.nonTerminated j)
              else
                match scanLoopF sql fuel (j + 1) with
                | Except.error e => Except.error e
                | Except.ok rest =>
                  if i2 + 3 < j then
                    let nm := (sql.drop (i2 + 2)).take (j - (i2 + 2))
                    Except.ok (RawParam.mk nm i2 (j + 1) PType.braces :: rest)
                  else Except.ok rest
          else
            let j := sepScanF sql (sql.length + 1) (i2 + 1)
            match scanLoopF sql fuel j with
            | Except.error e => Except.error e
            | Except.ok rest =>
              if i2 + 1 < j then
                let nm := (sql.drop (i2 + 1)).take (j - (i2 + 1))
                Except.ok (RawParam.mk nm i2 j (markerType c) :: rest)
              else Except.ok rest
        else scanLoopF sql fuel (i2 + 1)

/-- The raw marker occurrences of a statement, with the fuel `parse`
uses: one more than the input length, which exceeds the number of
iterations since every iteration advances the position. -/
def scanParams (sql : List Char) : Except ParseErr (List RawParam) :=
  scanLoopF sql (sql.length + 1) 0

/-- A distinct named parameter of the parsed statement: its name, its
1-based canonical index, and the 1-based occurrence numbers at which it
appears. -/
structure NamedParam where
  name : List Char
  index : Nat
  indexes : List Nat
deriving DecidableEq

/-- The `/^[0-9]+$/` test of the source. -/
def isNumericName (s : List Char) : Bool :=
  (decide (s ≠ [])) && s.all (fun c => c.isDigit)

/-- Record one occurrence of a marker name: an existing entry gets the
occurrence number appended; a new name is appended with canonical index
`fresh`. -/
def addOccurrence (fresh : Nat) : List NamedParam → List Char → Nat → List NamedParam
  | [], nm, occ => [{ name := nm, index := fresh, indexes := [occ] }]
  | np :: rest, nm, occ =>
    if np.name = nm then { np with indexes := np.indexes ++ [occ] } :: rest
    else np :: addOccurrence fresh rest nm occ

/-- The numbering loop of `parse`: walk the raw occurrences in order,
rejecting purely numeric names, and build the distinct parameter list in
first-occurrence order with 1-based canonical indices. -/
def numberParams : List RawParam → Nat → List NamedParam → Except ParseErr (List NamedParam)
  | [], _, acc => Except.ok acc
  | p :: rest, cnt, acc =>
    if isNumericName p.name then Except.error (ParseErr.mixedNumbered p.startPos)
    else numberParams rest (cnt + 1) (addOccurrence (acc.length + 1) acc p.name (cnt + 1))

/-- The distinct marker styles of the raw occurrences, mirroring the
`paramTypes` key set of the source. -/
def distinctTypes (ps : List RawParam) : List PType :=
  ps.foldl (fun acc p => if acc.contains p.ptype then acc else acc ++ [p.ptype]) []

/-- The decimal digits of a natural number. -/
def natDigits (n : Nat) : List Char :=
  (Nat.repr n).data

/-- `s.substring(0, a) + ins + s.substring(b)`. -/
def replaceSpan (s : List Char) (a b : Nat) (ins : List Char) : List Char :=
  s.take a ++ ins ++ s.drop b

/-- The canonical index assigned to a name. -/
def lookupIndex (nps : List NamedParam) (nm : List Char) : Nat :=
  match nps.find? (fun np => np.name = nm) with
  | some np => np.index
  | none => 0

/-- The rewrite loop of `parse`, one replacement per raw occurrence;
`parse` feeds it the occurrences from last to first so earlier spans
stay valid. -/
def rewriteLoop (nps : List NamedParam) : List RawParam → List Char → List Char
  | [], acc => acc
  | p :: rest, acc =>
    rewriteLoop nps rest
      (replaceSpan acc p.startPos p.endPos ('$' :: natDigits (lookupIndex nps p.name)))

/-- The result of `parse`: the rewritten statement, the original, the
distinct parameters, and the occurrence counts. -/
structure ParsedSql where
  sql : List Char
  originalSql : List Char
  params : List NamedParam
  numParams : Nat
  numDistinctParams : Nat
deriving DecidableEq

/-- `parse` from the source: scan the raw marker occurrences, number
them (rejecting numeric names), reject mixed marker styles, and rewrite
every occurrence right-to-left into its positional placeholder. -/
def parse (sql : List Char) : Except ParseErr ParsedSql :=
  match scanParams sql with
  | Except.error e => Except.error e
  | Except.ok raws =>
    match numberParams raws 0 [] with
    | Except.error e => Except.error e
    | Except.ok nps =>
      if 1 < (distinctTypes raws).length then Except.error ParseErr.mixedTypes
      else
        Except.ok { sql := rewriteLoop nps raws.reverse sql, originalSql := sql,
                    params := nps, numParams := raws.length,
                    numDistinctParams := nps.length }

/-- The loop of `convertParamValues`: one value per distinct parameter,
in order; a missing key is an error. -/
def convertGo {α : Type} (values : List (List Char × α)) :
    List NamedParam → Except ParseErr (List α)
  | [] => Except.ok []
  | np :: rest =>
    match values.lookup np.name with
    | some v =>
      match convertGo values rest with
      | Except.error e => Except.error e
      | Except.ok vs => Except.ok (v :: vs)
    | none => Except.error (ParseErr.noValue np.name)

/-- `convertParamValues` from the source: one value per distinct
parameter, in canonical-index order; a missing key is an error, unused
keys are ignored. -/
def convertParamValues {α : Type} (parsed : ParsedSql) (values : List (List Char × α)) :
    Except ParseErr (List α) :=
  convertGo values parsed.params

theorem charAt_some_lt (sql : List Char) (j : Nat) (c : Char)
    (h : charAt sql j = some c) : j < sql.length := by
  by_contra hle
  rw [charAt, List.get?_eq_none.mpr (by omega)] at h
  exact Option.noConfusion h

theorem charAt_none_of_le (sql : List Char) (j : Nat) (h : sql.length ≤ j) :
    charAt sql j = none :=
  List.get?_eq_none.mpr h

theorem matchesAt_le (sql : List Char) (k : Nat) (pat : List Char) (hne : pat ≠ [])
    (h : matchesAt sql k pat = true) : k + pat.length ≤ sql.length := by
  rw [matchesAt, decide_eq_true_eq] at h
  have hlen := congrArg List.length h
  rw [List.length_take, List.length_drop] at hlen
  have hp : 0 < pat.length := List.length_pos.mpr hne
  omega

theorem matchesAt_cons_succ (x : Char) (xs : List Char) (k : Nat) (pat : List Char) :
    matchesAt (x :: xs) (k + 1) pat = matchesAt xs k pat := by
  simp [matchesAt]

theorem matchesAt_one (sql : List Char) (k : Nat) (c : Char) :
    matchesAt sql k [c] = true ↔ charAt sql k = some c := by
  induction sql generalizing k with
  | nil => simp [matchesAt, charAt]
  | cons x xs ih =>
    cases k with
    | zero => simp [matchesAt, charAt]
    | succ k => rw [matchesAt_cons_succ]; rw [ih]; simp [charAt]

theorem matchesAt_head (sql : List Char) (k : Nat) (c0 : Char) (pat : List Char)
    (h : matchesAt sql k (c0 :: pat) = true) : charAt sql k = some c0 := by
  induction sql generalizing k with
  | nil => simp [matchesAt] at h
  | cons x xs ih =>
    cases k with
    | zero =>
      rw [matchesAt, decide_eq_true_eq] at h
      simp at h
      simp [charAt, h.1]
    | succ k =>
      rw [matchesAt_cons_succ] at h
      simpa [charAt] using ih k h

theorem matchesAt_two (sql : List Char) (k : Nat) (a b : Char) :
    matchesAt sql k [a, b] = true ↔
      (charAt sql k = some a ∧ charAt sql (k + 1) = some b) := by
  induction sql generalizing k with
  | nil => simp [matchesAt, charAt]
  | cons x xs ih =>
    cases k with
    | zero =>
      cases xs with
      | nil => simp [matchesAt, charAt]
      | cons y ys => simp [matchesAt, charAt]
    | succ k =>
      rw [matchesAt_cons_succ, ih]
      simp [charAt]

theorem matchesAt_ne_of_charAt (sql : List Char) (k : Nat) (c c0 : Char) (pat : List Char)
    (hc : charAt sql k = some c) (hne : c ≠ c0) :
    matchesAt sql k (c0 :: pat) = false := by
  by_contra h
  rw [Bool.not_eq_false] at h
  rw [matchesAt_head sql k c0 pat h] at hc
  exact hne (Option.some.inj hc).symm

theorem scanStop_some_spec (sql stop : List Char) (fuel p q : Nat)
    (h : scanStopF sql stop fuel p = some q) :
    p ≤ q ∧ q < sql.length ∧ matchesAt sql q stop = true := by
  induction fuel generalizing p with
  | zero => simp [scanStopF] at h
  | succ fuel ih =>
    rw [scanStopF] at h
    by_cases hlen : sql.length ≤ p
    · simp [hlen] at h
    · rw [if_neg hlen] at h
      by_cases hm : matchesAt sql p stop = true
      · rw [if_pos hm] at h
        cases h
        exact ⟨Nat.le_refl _, by omega, hm⟩
      · rw [if_neg hm] at h
        have := ih (p + 1) h
        exact ⟨by omega, this.2.1, this.2.2⟩

theorem scanStop_none_of (sql stop : List Char) (fuel p : Nat)
    (h : ∀ k, p ≤ k → matchesAt sql k stop = false) :
    scanStopF sql stop fuel p = none := by
  induction fuel generalizing p with
  | zero => rfl
  | succ fuel ih =>
    rw [scanStopF]
    by_cases hlen : sql.length ≤ p
    · rw [if_pos hlen]
    · rw [if_neg hlen, h p (Nat.le_refl p)]
      simp only [Bool.false_eq_true, if_false]
      exact ih (p + 1) (fun k hk => h k (by omega))

theorem scanStop_finds (sql stop : List Char) (fuel p q : Nat)
    (hq : matchesAt sql q stop = true) (hqlen : q < sql.length)
    (hmid : ∀ k, p ≤ k → k < q → matchesAt sql k stop = false)
    (hpq : p ≤ q) (hfuel : q - p < fuel) :
    scanStopF sql stop fuel p = some q := by
  induction fuel generalizing p with
  | zero => omega
  | succ fuel ih =>
    rw [scanStopF, if_neg (by omega)]
    by_cases hp : p = q
    · subst hp; rw [if_pos hq]
    · rw [hmid p (Nat.le_refl p) (by omega)]
      simp only [Bool.false_eq_true, if_false]
      exact ih (p + 1) (fun k hk hk2 => hmid k (by omega) hk2) (by omega) (by omega)

theorem skipGo_ge (sql : List Char) (skips : List Skip) (pos : Nat)
    (hne : ∀ sk ∈ skips, sk.start ≠ []) :
    pos ≤ skipGo sql skips pos := by
  induction skips generalizing pos with
  | nil => exact Nat.le_refl _
  | cons sk rest ih =>
    rw [skipGo]
    by_cases hm : matchesAt sql pos sk.start = true
    · rw [if_pos hm]
      have hne0 : sk.start ≠ [] := hne sk (List.mem_cons_self sk rest)
      have hlt : pos < sql.length := by
        have h1 := matchesAt_le sql pos sk.start hne0 hm
        have h2 : 0 < sk.start.length := List.length_pos.mpr hne0
        omega
      cases hs : scanStopF sql sk.stop (sql.length + 1) (pos + sk.start.length) with
      | none =>
        show pos ≤ sql.length
        omega
      | some q =>
        show pos ≤ skipGo sql rest (q + sk.stop.length)
        have hspec := scanStop_some_spec sql sk.stop _ _ _ hs
        have hrec := ih (q + sk.stop.length) (fun x hx => hne x (List.mem_cons_of_mem _ hx))
        have h2 : 0 < sk.start.length := List.length_pos.mpr hne0
        omega
    · rw [if_neg hm]
      exact ih pos (fun x hx => hne x (List.mem_cons_of_mem _ hx))

theorem skipGo_le_len (sql : List Char) (skips : List Skip) (pos : Nat)
    (hne : ∀ sk ∈ skips, sk.stop ≠ []) (hpos : pos ≤ sql.length) :
    skipGo sql skips pos ≤ sql.length := by
  induction skips generalizing pos with
  | nil => exact hpos
  | cons sk rest ih =>
    rw [skipGo]
    by_cases hm : matchesAt sql pos sk.start = true
    · rw [if_pos hm]
      cases hs : scanStopF sql sk.stop (sql.length + 1) (pos + sk.start.length) with
      | none =>
        show sql.length ≤ sql.length
        exact Nat.le_refl _
      | some q =>
        show skipGo sql rest (q + sk.stop.length) ≤ sql.length
        have hspec := scanStop_some_spec sql sk.stop _ _ _ hs
        have hqs := matchesAt_le sql q sk.stop (hne sk (List.mem_cons_self sk rest))
          hspec.2.2
        exact ih (q + sk.stop.length) (fun x hx => hne x (List.mem_cons_of_mem _ hx))
          (by omega)
    · rw [if_neg hm]
      exact ih pos (fun x hx => hne x (List.mem_cons_of_mem _ hx)) hpos

theorem SKIPS_starts_ne : ∀ sk ∈ SKIPS, sk.start ≠ [] := by
  intro sk hsk
  simp [SKIPS] at hsk
  rcases hsk with h | h | h | h <;> rw [h] <;> simp

theorem SKIPS_stops_ne : ∀ sk ∈ SKIPS, sk.stop ≠ [] := by
  intro sk hsk
  simp [SKIPS] at hsk
  rcases hsk with h | h | h | h <;> rw [h] <;> simp

theorem skip_ge (sql : List Char) (pos : Nat) :
    pos ≤ skipCommentsAndQuotes sql pos :=
  skipGo_ge sql SKIPS pos SKIPS_starts_ne

theorem skip_le_len (sql : List Char) (pos : Nat) (hpos : pos ≤ sql.length) :
    skipCommentsAndQuotes sql pos ≤ sql.length :=
  skipGo_le_len sql SKIPS pos SKIPS_stops_ne hpos

theorem skipFixF_ge (sql : List Char) (fuel i : Nat) : i ≤ skipFixF sql fuel i := by
  induction fuel generalizing i with
  | zero => exact Nat.le_refl _
  | succ fuel ih =>
    rw [skipFixF]
    by_cases hlen : sql.length ≤ i
    · rw [if_pos hlen]
    · rw [if_neg hlen]
      by_cases hlt : i < skipCommentsAndQuotes sql i
      · rw [if_pos hlt]
        have := ih (skipCommentsAndQuotes sql i)
        omega
      · rw [if_neg hlt]

theorem skipFixF_ge_skip (sql : List Char) (fuel i : Nat) (hlen : i < sql.length) :
    skipCommentsAndQuotes sql i ≤ skipFixF sql (fuel + 1) i := by
  rw [skipFixF, if_neg (by omega)]
  by_cases hlt : i < skipCommentsAndQuotes sql i
  · rw [if_pos hlt]
    exact skipFixF_ge sql fuel _
  · rw [if_neg hlt]
    omega

theorem skipFixF_id (sql : List Char) (fuel i : Nat)
    (h : skipCommentsAndQuotes sql i = i) : skipFixF sql fuel i = i := by
  cases fuel with
  | zero => rfl
  | succ fuel =>
    rw [skipFixF]
    by_cases hlen : sql.length ≤ i
    · rw [if_pos hlen]
    · rw [if_neg hlen, h, if_neg (by omega)]

theorem skip_id_of_char (sql : List Char) (i : Nat) (c : Char)
    (hc : charAt sql i = some c)
    (h1 : c ≠ '\'') (h2 : c ≠ '"') (h3 : c ≠ '-') (h4 : c ≠ '/') :
    skipCommentsAndQuotes sql i = i := by
  have m1 := matchesAt_ne_of_charAt sql i c '\'' [] hc h1
  have m2 := matchesAt_ne_of_charAt sql i c '"' [] hc h2
  have m3 := matchesAt_ne_of_charAt sql i c '-' ['-'] hc h3
  have m4 := matchesAt_ne_of_charAt sql i c '/' ['*'] hc h4
  simp [skipCommentsAndQuotes, SKIPS, skipGo, m1, m2, m3, m4]

theorem sepScanF_ge (sql : List Char) (fuel j : Nat) : j ≤ sepScanF sql fuel j := by
  induction fuel generalizing j with
  | zero => exact Nat.le_refl _
  | succ fuel ih =>
    rw [sepScanF]
    cases hc : charAt sql j with
    | none => exact Nat.le_refl _
    | some c =>
      by_cases hsep : isParamSeparator c = true
      · simp [hsep]
      · simp only [hsep, Bool.false_eq_true, if_false]
        have := ih (j + 1)
        omega

theorem braceScanF_ge (sql : List Char) (fuel j q : Nat)
    (h : braceScanF sql fuel j = Except.ok q) : j ≤ q := by
  induction fuel generalizing j with
  | zero => cases h; exact Nat.le_refl _
  | succ fuel ih =>
    rw [braceScanF] at h
    by_cases hlen : sql.length ≤ j
    · rw [if_pos hlen] at h; cases h; exact Nat.le_refl _
    · rw [if_neg hlen] at h
      by_cases hcl : charAt sql j = some '}'
      · rw [if_pos hcl] at h; cases h; exact Nat.le_refl _
      · rw [if_neg hcl] at h
        by_cases hbad : charAt sql (j + 1) = some ':' ∨ charAt sql (j + 1) = some '{'
        · rw [if_pos hbad] at h; cases h
        · rw [if_neg hbad] at h
          have := ih (j + 1) h
          omega

theorem scan_params_ge (sql : List Char) : ∀ (fuel i : Nat) (raws : List RawParam),
    scanLoopF sql fuel i = Except.ok raws →
    ∀ p ∈ raws, skipFixF sql (sql.length + 1) i ≤ p.startPos := by
  intro fuel
  induction fuel with
  | zero =>
    intro i raws h p hp
    rw [scanLoopF] at h
    cases h
    simp at hp
  | succ fuel ih =>
    intro i raws h p hp
    rw [scanLoopF] at h
    by_cases hlen : sql.length ≤ i
    · rw [if_pos hlen] at h
      cases h
      simp at hp
    · rw [if_neg hlen] at h
      simp only [] at h
      set i2 := skipFixF sql (sql.length + 1) i with hi2
      cases hc : charAt sql i2 with
      | none =>
        rw [hc] at h
        cases h
        simp at hp
      | some c =>
        rw [hc] at h
        simp only [] at h
        by_cases hmk : c = ':' ∨ c = '&' ∨ c = '$'
        · rw [if_pos hmk] at h
          by_cases hcc : matchesAt sql i2 [':', ':'] = true
          · rw [if_pos hcc] at h
            have := ih (i2 + 2) raws h p hp
            have h2 := skipFixF_ge sql (sql.length + 1) (i2 + 2)
            omega
          · rw [if_neg hcc] at h
            by_cases hbr : matchesAt sql i2 [':', '{'] = true
            · rw [if_pos hbr] at h
              cases hbs : braceScanF sql (sql.length + 1) (i2 + 1) with
              | error e => rw [hbs] at h; cases h
              | ok j =>
                rw [hbs] at h
                simp only [] at h
                have hjge := braceScanF_ge sql (sql.length + 1) (i2 + 1) j hbs
                by_cases hjlen : sql.length ≤ j
                · rw [if_pos hjlen] at h; cases h
                · rw [if_neg hjlen] at h
                  cases hrec : scanLoopF sql fuel (j + 1) with
                  | error e => rw [hrec] at h; cases h
                  | ok rest =>
                    rw [hrec] at h
                    simp only [] at h
                    have hrest := ih (j + 1) rest hrec
                    have hge := skipFixF_ge sql (sql.length + 1) (j + 1)
                    by_cases hpush : i2 + 3 < j
                    · rw [if_pos hpush] at h
                      cases h
                      rcases List.mem_cons.mp hp with h1 | h1
                      · rw [h1]
                      · have := hrest p h1
                        omega
                    · rw [if_neg hpush] at h
                      cases h
                      have := hrest p hp
                      omega
            · rw [if_neg hbr] at h
              set j := sepScanF sql (sql.length + 1) (i2 + 1) with hj
              have hjge := sepScanF_ge sql (sql.length + 1) (i2 + 1)
              cases hrec : scanLoopF sql fuel j with
              | error e => rw [hrec] at h; cases h
              | ok rest =>
                rw [hrec] at h
                simp only [] at h
                have hrest := ih j rest hrec
                have hge := skipFixF_ge sql (sql.length + 1) j
                by_cases hpush : i2 + 1 < j
                · rw [if_pos hpush] at h
                  cases h
                  rcases List.mem_cons.mp hp with h1 | h1
                  · rw [h1]
                  · have := hrest p h1
                    omega
                · rw [if_neg hpush] at h
                  cases h
                  have := hrest p hp
                  omega
        · rw [if_neg hmk] at h
          have := ih (i2 + 1) raws h p hp
          have h2 := skipFixF_ge sql (sql.length + 1) (i2 + 1)
          omega

theorem charAt_cons_succ (x : Char) (l : List Char) (k : Nat) :
    charAt (x :: l) (k + 1) = charAt l k := rfl

theorem charAt_mem (l : List Char) (k : Nat) (hk : k < l.length) :
    ∃ c, charAt l k = some c ∧ c ∈ l :=
  ⟨l.get ⟨k, hk⟩, List.get?_eq_get hk, List.get_mem l k hk⟩

theorem quoteStop_finds (qc : Char) (inner rest : List Char) (hin : qc ∉ inner) :
    scanStopF (qc :: inner ++ qc :: rest) [qc] ((qc :: inner ++ qc :: rest).length + 1) 1 =
      some (inner.length + 1) := by
  set sql := qc :: inner ++ qc :: rest with hsql
  have hlen : sql.length = inner.length + 2 + rest.length := by
    simp [hsql]; omega
  have hcq : charAt sql (inner.length + 1) = some qc := by
    rw [hsql, charAt, List.get?_append_right (by simp)]
    simp
  apply scanStop_finds
  · exact (matchesAt_one sql (inner.length + 1) qc).mpr hcq
  · omega
  · intro k hk1 hk2
    have hk3 : k - 1 < inner.length := by omega
    rcases charAt_mem inner (k - 1) hk3 with ⟨c, hc, hcmem⟩
    have hck : charAt sql k = some c := by
      rw [hsql, charAt, List.get?_append (by simp; omega)]
      rcases Nat.exists_eq_add_of_le hk1 with ⟨m, hm⟩
      subst hm
      rw [Nat.add_comm 1 m, List.get?_cons_succ]
      rw [charAt] at hc
      simpa using hc
    exact matchesAt_ne_of_charAt sql k c qc [] hck (fun he => hin (he ▸ hcmem))
  · omega
  · omega

theorem skip_quote_region (qc : Char) (hq : qc = '\'' ∨ qc = '"')
    (inner rest : List Char) (hin : qc ∉ inner) :
    inner.length + 2 ≤ skipCommentsAndQuotes (qc :: inner ++ qc :: rest) 0 := by
  set sql := qc :: inner ++ qc :: rest with hsql
  have hc0 : charAt sql 0 = some qc := rfl
  have hfind := quoteStop_finds qc inner rest hin
  rw [← hsql] at hfind
  rw [skipCommentsAndQuotes, SKIPS]
  rcases hq with hq | hq
  · rw [skipGo, if_pos ((matchesAt_one sql 0 '\'').mpr (hq ▸ hc0))]
    have hfind2 : scanStopF sql ['\''] (sql.length + 1) (0 + (['\''] : List Char).length) =
        some (inner.length + 1) := by
      simpa [hq] using hfind
    rw [hfind2]
    have := skipGo_ge sql [{ start := ['"'], stop := ['"'] },
      { start := ['-', '-'], stop := ['\n'] },
      { start := ['/', '*'], stop := ['*', '/'] }] (inner.length + 1 + (['\''] : List Char).length)
      (by intro sk hsk; simp at hsk; rcases hsk with h | h | h <;> rw [h] <;> simp)
    simpa using this
  · have hm1 : matchesAt sql 0 ['\''] = false :=
      matchesAt_ne_of_charAt sql 0 qc '\'' [] hc0 (by rw [hq]; decide)
    rw [skipGo, if_neg (by rw [hm1]; simp)]
    rw [skipGo, if_pos ((matchesAt_one sql 0 '"').mpr (hq ▸ hc0))]
    have hfind2 : scanStopF sql ['"'] (sql.length + 1) (0 + (['"'] : List Char).length) =
        some (inner.length + 1) := by
      simpa [hq] using hfind
    rw [hfind2]
    have := skipGo_ge sql [{ start := ['-', '-'], stop := ['\n'] },
      { start := ['/', '*'], stop := ['*', '/'] }] (inner.length + 1 + (['"'] : List Char).length)
      (by intro sk hsk; simp at hsk; rcases hsk with h | h <;> rw [h] <;> simp)
    simpa using this

theorem lineStop_finds (inner rest : List Char) (hin : '\n' ∉ inner) :
    scanStopF ('-' :: '-' :: inner ++ '\n' :: rest) ['\n']
      (('-' :: '-' :: inner ++ '\n' :: rest).length + 1) 2 = some (inner.length + 2) := by
  set sql := '-' :: '-' :: inner ++ '\n' :: rest with hsql
  have hlen : sql.length = inner.length + 3 + rest.length := by
    simp [hsql]; omega
  have hcq : charAt sql (inner.length + 2) = some '\n' := by
    rw [hsql, charAt, List.get?_append_right (by simp only [List.length_cons]; omega)]
    simp
  apply scanStop_finds
  · exact (matchesAt_one sql (inner.length + 2) '\n').mpr hcq
  · omega
  · intro k hk1 hk2
    have hk3 : k - 2 < inner.length := by omega
    rcases charAt_mem inner (k - 2) hk3 with ⟨c, hc, hcmem⟩
    have hck : charAt sql k = some c := by
      rw [hsql, charAt, List.get?_append (by simp; omega)]
      rcases Nat.exists_eq_add_of_le hk1 with ⟨m, hm⟩
      subst hm
      rw [Nat.add_comm 2 m, List.get?_cons_succ, List.get?_cons_succ]
      rw [charAt] at hc
      simpa using hc
    exact matchesAt_ne_of_charAt sql k c '\n' [] hck (fun he => hin (he ▸ hcmem))
  · omega
  · omega

theorem skip_linecomment_region (inner rest : List Char) (hin : '\n' ∉ inner) :
    inner.length + 3 ≤ skipCommentsAndQuotes ('-' :: '-' :: inner ++ '\n' :: rest) 0 := by
  set sql := '-' :: '-' :: inner ++ '\n' :: rest with hsql
  have hc0 : charAt sql 0 = some '-' := rfl
  have hc1 : charAt sql 1 = some '-' := rfl
  have hfind := lineStop_finds inner rest hin
  rw [← hsql] at hfind
  rw [skipCommentsAndQuotes, SKIPS]
  rw [skipGo, if_neg (by rw [matchesAt_ne_of_charAt sql 0 '-' '\'' [] hc0 (by decide)]; simp)]
  rw [skipGo, if_neg (by rw [matchesAt_ne_of_charAt sql 0 '-' '"' [] hc0 (by decide)]; simp)]
  rw [skipGo, if_pos ((matchesAt_two sql 0 '-' '-').mpr ⟨hc0, hc1⟩)]
  have hfind2 : scanStopF sql ['\n'] (sql.length + 1) (0 + (['-', '-'] : List Char).length) =
      some (inner.length + 2) := by
    simpa using hfind
  rw [hfind2]
  have := skipGo_ge sql [{ start := ['/', '*'], stop := ['*', '/'] }]
    (inner.length + 2 + (['\n'] : List Char).length)
    (by intro sk hsk; simp at hsk; rw [hsk]; simp)
  simpa using this

theorem blockStop_finds (inner rest : List Char)
    (hin : ∀ m, m < inner.length → matchesAt inner m ['*', '/'] = false) :
    scanStopF ('/' :: '*' :: inner ++ '*' :: '/' :: rest) ['*', '/']
      (('/' :: '*' :: inner ++ '*' :: '/' :: rest).length + 1) 2 =
      some (inner.length + 2) := by
  set sql := '/' :: '*' :: inner ++ '*' :: '/' :: rest with hsql
  have hlen : sql.length = inner.length + 4 + rest.length := by
    simp [hsql]; omega
  have hcs : charAt sql (inner.length + 2) = some '*' := by
    rw [hsql, charAt, List.get?_append_right (by simp only [List.length_cons]; omega)]
    simp
  have hcs2 : charAt sql (inner.length + 3) = some '/' := by
    rw [hsql, charAt, List.get?_append_right (by simp only [List.length_cons]; omega)]
    have h13 : inner.length + 3 - ('/' :: '*' :: inner).length = 1 := by
      simp only [List.length_cons]
      omega
    rw [h13]
    rfl
  have hinner : ∀ k, 2 ≤ k → k < inner.length + 2 → charAt sql k = charAt inner (k - 2) := by
    intro k hk1 hk2
    rw [hsql, charAt, List.get?_append (by simp; omega)]
    rcases Nat.exists_eq_add_of_le hk1 with ⟨m, hm⟩
    subst hm
    rw [Nat.add_comm 2 m, List.get?_cons_succ, List.get?_cons_succ]
    rw [charAt]
    congr 1
  apply scanStop_finds
  · exact (matchesAt_two sql (inner.length + 2) '*' '/').mpr ⟨hcs, by
      have : inner.length + 2 + 1 = inner.length + 3 := by omega
      rw [this]; exact hcs2⟩
  · omega
  · intro k hk1 hk2
    by_contra hmm
    rw [Bool.not_eq_false] at hmm
    rcases (matchesAt_two sql k '*' '/').mp hmm with ⟨ha, hb⟩
    by_cases hedge : k + 1 < inner.length + 2
    · have h1 : charAt inner (k - 2) = some '*' := by
        rw [← hinner k hk1 (by omega)]; exact ha
      have h2 : charAt inner (k - 1) = some '/' := by
        have := hinner (k + 1) (by omega) hedge
        rw [show k + 1 - 2 = k - 1 by omega] at this
        rw [← this]; exact hb
      have := (matchesAt_two inner (k - 2) '*' '/').mpr ⟨h1, by
        rw [show k - 2 + 1 = k - 1 by omega]; exact h2⟩
      rw [hin (k - 2) (by omega)] at this
      exact Bool.noConfusion this
    · have hk : k + 1 = inner.length + 2 := by omega
      rw [hk, hcs] at hb
      exact absurd (Option.some.inj hb) (by decide)
  · omega
  · omega

theorem skip_blockcomment_region (inner rest : List Char)
    (hin : ∀ m, m < inner.length → matchesAt inner m ['*', '/'] = false) :
    inner.length + 4 ≤ skipCommentsAndQuotes ('/' :: '*' :: inner ++ '*' :: '/' :: rest) 0 := by
  set sql := '/' :: '*' :: inner ++ '*' :: '/' :: rest with hsql
  have hc0 : charAt sql 0 = some '/' := rfl
  have hc1 : charAt sql 1 = some '*' := rfl
  have hfind := blockStop_finds inner rest hin
  rw [← hsql] at hfind
  rw [skipCommentsAndQuotes, SKIPS]
  rw [skipGo, if_neg (by rw [matchesAt_ne_of_charAt sql 0 '/' '\'' [] hc0 (by decide)]; simp)]
  rw [skipGo, if_neg (by rw [matchesAt_ne_of_charAt sql 0 '/' '"' [] hc0 (by decide)]; simp)]
  rw [skipGo, if_neg (by rw [matchesAt_ne_of_charAt sql 0 '/' '-' ['-'] hc0 (by decide)]; simp)]
  rw [skipGo, if_pos ((matchesAt_two sql 0 '/' '*').mpr ⟨hc0, hc1⟩)]
  have hfind2 : scanStopF sql ['*', '/'] (sql.length + 1) (0 + (['/', '*'] : List Char).length) =
      some (inner.length + 2) := by
    simpa using hfind
  rw [hfind2]
  show inner.length + 4 ≤ skipGo sql []
    (inner.length + 2 + (Skip.mk ['/', '*'] ['*', '/']).stop.length)
  show inner.length + 4 ≤ inner.length + 2 + 2
  omega

theorem matchesAt_one_false (sql : List Char) (k : Nat) (c : Char)
    (h : charAt sql k ≠ some c) : matchesAt sql k [c] = false := by
  by_contra hm
  rw [Bool.not_eq_false] at hm
  exact h ((matchesAt_one sql k c).mp hm)

theorem quoteStop_none (qc : Char) (inner : List Char) (hin : qc ∉ inner) (fuel : Nat) :
    scanStopF (qc :: inner) [qc] fuel 1 = none := by
  apply scanStop_none_of
  intro k hk
  apply matchesAt_one_false
  intro hc
  have hlt := charAt_some_lt _ _ _ hc
  simp only [List.length_cons] at hlt
  rcases Nat.exists_eq_add_of_le hk with ⟨m, hm⟩
  subst hm
  rw [show 1 + m = m + 1 from by omega, charAt_cons_succ] at hc
  exact hin (List.get?_mem hc)

theorem skip_quote_unterminated (qc : Char) (hq : qc = '\'' ∨ qc = '"')
    (inner : List Char) (hin : qc ∉ inner) :
    skipCommentsAndQuotes (qc :: inner) 0 = (qc :: inner).length := by
  set sql := qc :: inner with hsql
  have hc0 : charAt sql 0 = some qc := rfl
  have hnone := quoteStop_none qc inner hin (sql.length + 1)
  rw [← hsql] at hnone
  rw [skipCommentsAndQuotes, SKIPS]
  rcases hq with hq | hq
  · rw [skipGo, if_pos ((matchesAt_one sql 0 '\'').mpr (hq ▸ hc0))]
    have hnone2 : scanStopF sql ['\''] (sql.length + 1) (0 + (['\''] : List Char).length) =
        none := by
      simpa [hq] using hnone
    rw [hnone2]
  · rw [skipGo, if_neg (by
      rw [matchesAt_ne_of_charAt sql 0 qc '\'' [] hc0 (by rw [hq]; decide)]; simp)]
    rw [skipGo, if_pos ((matchesAt_one sql 0 '"').mpr (hq ▸ hc0))]
    have hnone2 : scanStopF sql ['"'] (sql.length + 1) (0 + (['"'] : List Char).length) =
        none := by
      simpa [hq] using hnone
    rw [hnone2]

theorem blockStop_none (inner : List Char)
    (hin : ∀ m, m < inner.length → matchesAt inner m ['*', '/'] = false) (fuel : Nat) :
    scanStopF ('/' :: '*' :: inner) ['*', '/'] fuel 2 = none := by
  apply scanStop_none_of
  intro k hk
  by_contra hm
  rw [Bool.not_eq_false] at hm
  rcases (matchesAt_two _ k '*' '/').mp hm with ⟨ha, hb⟩
  have hlt := charAt_some_lt _ _ _ hb
  simp only [List.length_cons] at hlt
  rcases Nat.exists_eq_add_of_le hk with ⟨m, hm2⟩
  subst hm2
  rw [show 2 + m = m + 1 + 1 from by omega, charAt_cons_succ, charAt_cons_succ] at ha
  rw [show 2 + m + 1 = m + 1 + 1 + 1 from by omega, charAt_cons_succ, charAt_cons_succ] at hb
  have := (matchesAt_two inner m '*' '/').mpr ⟨ha, hb⟩
  rw [hin m (by omega)] at this
  exact Bool.noConfusion this

theorem skip_block_unterminated (inner : List Char)
    (hin : ∀ m, m < inner.length → matchesAt inner m ['*', '/'] = false) :
    skipCommentsAndQuotes ('/' :: '*' :: inner) 0 = ('/' :: '*' :: inner).length := by
  set sql := '/' :: '*' :: inner with hsql
  have hc0 : charAt sql 0 = some '/' := rfl
  have hc1 : charAt sql 1 = some '*' := rfl
  have hnone := blockStop_none inner hin (sql.length + 1)
  rw [← hsql] at hnone
  rw [skipCommentsAndQuotes, SKIPS]
  rw [skipGo, if_neg (by rw [matchesAt_ne_of_charAt sql 0 '/' '\'' [] hc0 (by decide)]; simp)]
  rw [skipGo, if_neg (by rw [matchesAt_ne_of_charAt sql 0 '/' '"' [] hc0 (by decide)]; simp)]
  rw [skipGo, if_neg (by rw [matchesAt_ne_of_charAt sql 0 '/' '-' ['-'] hc0 (by decide)]; simp)]
  rw [skipGo, if_pos ((matchesAt_two sql 0 '/' '*').mpr ⟨hc0, hc1⟩)]
  have hnone2 : scanStopF sql ['*', '/'] (sql.length + 1) (0 + (['/', '*'] : List Char).length) =
      none := by
    simpa using hnone
  rw [hnone2]

theorem skipFixF_at_end (sql : List Char) (fuel i : Nat) (h : sql.length ≤ i) :
    skipFixF sql fuel i = i := by
  cases fuel with
  | zero => rfl
  | succ fuel => rw [skipFixF, if_pos h]

theorem skipFix_to_end (sql : List Char) (fuel : Nat) (hne : 0 < sql.length)
    (h : skipCommentsAndQuotes sql 0 = sql.length) :
    skipFixF sql (fuel + 1) 0 = sql.length := by
  rw [skipFixF, if_neg (by omega), h, if_pos hne]
  exact skipFixF_at_end sql fuel sql.length (Nat.le_refl _)

theorem scanLoopF_at_fix_end (sql : List Char) (fuel : Nat) (hne : 0 < sql.length)
    (hfix : skipFixF sql (sql.length + 1) 0 = sql.length) :
    scanLoopF sql (fuel + 1) 0 = Except.ok [] := by
  rw [scanLoopF, if_neg (by omega)]
  show (match charAt sql (skipFixF sql (sql.length + 1) 0) with
    | none => Except.ok []
    | some c => _) = Except.ok []
  rw [hfix, charAt_none_of_le sql sql.length (Nat.le_refl _)]


/-- First-occurrence deduplication, continuing from an accumulator. -/
def dedupFrom (a : List (List Char)) : List (List Char) → List (List Char)
  | [] => a
  | n :: l => dedupFrom (if n ∈ a then a else a ++ [n]) l

/-- The distinct elements of a list in first-occurrence order. -/
def dedupFirst (l : List (List Char)) : List (List Char) :=
  dedupFrom [] l

theorem addOccurrence_names (fresh : Nat) (acc : List NamedParam) (nm : List Char) (occ : Nat) :
    (addOccurrence fresh acc nm occ).map NamedParam.name =
      (if nm ∈ acc.map NamedParam.name then acc.map NamedParam.name
       else acc.map NamedParam.name ++ [nm]) := by
  induction acc with
  | nil => simp [addOccurrence]
  | cons np rest ih =>
    by_cases h : np.name = nm
    · rw [addOccurrence, if_pos h]
      simp [h]
    · rw [addOccurrence, if_neg h]
      have hne : (nm ∈ List.map NamedParam.name (np :: rest)) ↔
          (nm ∈ rest.map NamedParam.name) := by
        simp only [List.map_cons, List.mem_cons]
        constructor
        · rintro (h1 | h1)
          · exact absurd h1.symm h
          · exact h1
        · exact Or.inr
      by_cases hm : nm ∈ rest.map NamedParam.name
      · rw [if_pos (hne.mpr hm)]
        simp only [List.map_cons]
        rw [ih, if_pos hm]
      · rw [if_neg (fun hx => hm (hne.mp hx))]
        simp only [List.map_cons]
        rw [ih, if_neg hm]
        simp

theorem addOccurrence_indexes (fresh : Nat) (acc : List NamedParam) (nm : List Char) (occ : Nat) :
    (addOccurrence fresh acc nm occ).map NamedParam.index =
      (if nm ∈ acc.map NamedParam.name then acc.map NamedParam.index
       else acc.map NamedParam.index ++ [fresh]) := by
  induction acc with
  | nil => simp [addOccurrence]
  | cons np rest ih =>
    by_cases h : np.name = nm
    · rw [addOccurrence, if_pos h]
      simp [h]
    · rw [addOccurrence, if_neg h]
      have hne : (nm ∈ List.map NamedParam.name (np :: rest)) ↔
          (nm ∈ rest.map NamedParam.name) := by
        simp only [List.map_cons, List.mem_cons]
        constructor
        · rintro (h1 | h1)
          · exact absurd h1.symm h
          · exact h1
        · exact Or.inr
      by_cases hm : nm ∈ rest.map NamedParam.name
      · rw [if_pos (hne.mpr hm)]
        simp only [List.map_cons]
        rw [ih, if_pos hm]
      · rw [if_neg (fun hx => hm (hne.mp hx))]
        simp only [List.map_cons]
        rw [ih, if_neg hm]
        simp

theorem numberParams_ok_spec : ∀ (raws : List RawParam) (cnt : Nat)
    (acc nps : List NamedParam),
    numberParams raws cnt acc = Except.ok nps →
    acc.map NamedParam.index = List.range' 1 acc.length →
    nps.map NamedParam.index = List.range' 1 nps.length
    ∧ nps.map NamedParam.name = dedupFrom (acc.map NamedParam.name)
        (raws.map RawParam.name) := by
  intro raws
  induction raws with
  | nil =>
    intro cnt acc nps h hinv
    rw [numberParams] at h
    cases h
    exact ⟨by simpa using hinv, by simp [dedupFrom]⟩
  | cons p rest ih =>
    intro cnt acc nps h hinv
    rw [numberParams] at h
    by_cases hnum : isNumericName p.name = true
    · rw [if_pos hnum] at h; cases h
    · rw [if_neg hnum] at h
      have hlen : (addOccurrence (acc.length + 1) acc p.name (cnt + 1)).length =
          (if p.name ∈ acc.map NamedParam.name then acc.length else acc.length + 1) := by
        have := congrArg List.length (addOccurrence_names (acc.length + 1) acc p.name (cnt + 1))
        simp only [List.length_map] at this
        by_cases hm : p.name ∈ acc.map NamedParam.name
        · rw [if_pos hm] at this ⊢
          simpa using this
        · rw [if_neg hm] at this ⊢
          simpa using this
      have hinv' : (addOccurrence (acc.length + 1) acc p.name (cnt + 1)).map
          NamedParam.index = List.range' 1
            (addOccurrence (acc.length + 1) acc p.name (cnt + 1)).length := by
        rw [addOccurrence_indexes, hlen]
        by_cases hm : p.name ∈ acc.map NamedParam.name
        · rw [if_pos hm, if_pos hm, hinv]
        · rw [if_neg hm, if_neg hm, hinv]
          have := @List.range'_concat 1 1 acc.length
          rw [this]
          simp [Nat.add_comm]
      have hrec := ih (cnt + 1) (addOccurrence (acc.length + 1) acc p.name (cnt + 1)) nps
        h hinv'
      refine ⟨hrec.1, ?_⟩
      rw [hrec.2, List.map_cons]
      rw [dedupFrom, addOccurrence_names]

theorem scanLoopF_cast_step (sql : List Char) (fuel : Nat)
    (hne : 0 < sql.length)
    (hfix : skipFixF sql (sql.length + 1) 0 = 0)
    (hc0 : charAt sql 0 = some ':')
    (hcc : matchesAt sql 0 [':', ':'] = true) :
    scanLoopF sql (fuel + 1) 0 = scanLoopF sql fuel 2 := by
  rw [scanLoopF, if_neg (by omega)]
  simp only [hfix, hc0, hcc]
  simp

/-- C6: the numbering phase of `parse` assigns each distinct marker name
the 1-based canonical indices 1, 2, … in first-occurrence order; a
doubled colon at the scan position is skipped as a type cast, so no
marker is extracted at its position; and on the concrete example every
occurrence of the one distinct name is rewritten to the placeholder of
its canonical index, and binding produces the singleton value list. -/
theorem claim_C6_canonical_indexing :
    (∀ (raws : List RawParam) (nps : List NamedParam),
      numberParams raws 0 [] = Except.ok nps →
      nps.map NamedParam.index = List.range' 1 nps.length
      ∧ nps.map NamedParam.name = dedupFirst (raws.map RawParam.name))
    ∧ (∀ (rest : List Char) (raws : List RawParam),
        scanParams (':' :: ':' :: rest) = Except.ok raws →
        ∀ p ∈ raws, 2 ≤ p.startPos)
    ∧ parse "SELECT :name::text AS x, :name AS y".data =
        Except.ok { sql := "SELECT $1::text AS x, $1 AS y".data,
                    originalSql := "SELECT :name::text AS x, :name AS y".data,
                    params := [{ name := "name".data, index := 1, indexes := [1, 2] }],
                    numParams := 2, numDistinctParams := 1 }
    ∧ (match parse "SELECT :name::text AS x, :name AS y".data with
        | Except.ok ps => convertParamValues ps [("name".data, "v")]
        | Except.error e => Except.error e) = Except.ok ["v"] := by
  refine ⟨?_, ?_, by decide, by decide⟩
  · intro raws nps h
    exact numberParams_ok_spec raws 0 [] nps h (by simp)
  · intro rest raws hscan p hp
    have hfix : skipFixF (':' :: ':' :: rest) ((':' :: ':' :: rest).length + 1) 0 = 0 :=
      skipFixF_id _ _ 0 (skip_id_of_char _ 0 ':' rfl (by decide) (by decide) (by decide)
        (by decide))
    have hstep := scanLoopF_cast_step (':' :: ':' :: rest) (':' :: ':' :: rest).length
      (by simp) hfix rfl ((matchesAt_two _ 0 ':' ':').mpr ⟨rfl, rfl⟩)
    rw [scanParams, hstep] at hscan
    have h1 := scan_params_ge (':' :: ':' :: rest) (':' :: ':' :: rest).length 2 raws
      hscan p hp
    have h2 := skipFixF_ge (':' :: ':' :: rest) ((':' :: ':' :: rest).length + 1) 2
    omega

/-- C6 witness: the numbering clause applied to the two raw occurrences
of the concrete example. -/
theorem claim_C6_canonical_indexing_witness :
    numberParams [RawParam.mk "name".data 7 12 PType.colon,
        RawParam.mk "name".data 25 30 PType.colon] 0 [] =
      Except.ok [NamedParam.mk "name".data 1 [1, 2]]
    ∧ ([NamedParam.mk "name".data 1 [1, 2]].map NamedParam.index = List.range' 1 1
       ∧ [NamedParam.mk "name".data 1 [1, 2]].map NamedParam.name =
          dedupFirst (List.map RawParam.name [RawParam.mk "name".data 7 12 PType.colon,
            RawParam.mk "name".data 25 30 PType.colon])) :=
  ⟨by decide,
   claim_C6_canonical_indexing.1
     [RawParam.mk "name".data 7 12 PType.colon, RawParam.mk "name".data 25 30 PType.colon]
     [NamedParam.mk "name".data 1 [1, 2]] (by decide)⟩

/-- Whether an `Except` is an error. -/
def isErr {ε α : Type} : Except ε α → Bool
  | Except.error _ => true
  | Except.ok _ => false

theorem braceScan_runs_off (sql : List Char) : ∀ (fuel j : Nat),
    j ≤ sql.length → sql.length - j < fuel →
    (∀ k, j ≤ k → k < sql.length → charAt sql k ≠ some '}') →
    (∀ k, j + 1 ≤ k → k < sql.length → charAt sql k ≠ some ':' ∧ charAt sql k ≠ some '{') →
    braceScanF sql fuel j = Except.ok sql.length := by
  intro fuel
  induction fuel with
  | zero => intro j h1 h2 h3 h4; omega
  | succ fuel ih =>
    intro j hj hfuel hnb hbad
    rw [braceScanF]
    by_cases hend : sql.length ≤ j
    · rw [if_pos hend]
      have : j = sql.length := by omega
      rw [this]
    · rw [if_neg hend, if_neg (hnb j (Nat.le_refl j) (by omega))]
      rw [if_neg (by
        rintro (hx | hx) <;>
          exact absurd hx (by
            have hlt := charAt_some_lt _ _ _ hx
            have := hbad (j + 1) (Nat.le_refl _) hlt
            first
            | exact this.1
            | exact this.2))]
      exact ih (j + 1) (by omega) (by omega)
        (fun k hk hk2 => hnb k (by omega) hk2)
        (fun k hk hk2 => hbad k (by omega) hk2)

theorem braceScan_err (sql : List Char) : ∀ (fuel j q : Nat),
    j < q → q - j < fuel →
    (charAt sql q = some ':' ∨ charAt sql q = some '{') →
    (∀ k, j ≤ k → k < q → charAt sql k ≠ some '}') →
    (∀ k, j + 1 ≤ k → k < q → charAt sql k ≠ some ':' ∧ charAt sql k ≠ some '{') →
    braceScanF sql fuel j = Except.error (ParseErr.invalidNameChar q) := by
  intro fuel
  induction fuel with
  | zero => intro j q h1 h2 h3 h4 h5; omega
  | succ fuel ih =>
    intro j q hjq hfuel hq hnb hbad
    have hqlen : q < sql.length := by
      rcases hq with hx | hx <;> exact charAt_some_lt _ _ _ hx
    rw [braceScanF, if_neg (by omega), if_neg (hnb j (Nat.le_refl j) hjq)]
    by_cases hstep : j + 1 = q
    · rw [if_pos (by rw [hstep]; exact hq), hstep]
    · rw [if_neg (by
        rintro (hx | hx) <;>
          exact absurd hx (by
            have := hbad (j + 1) (Nat.le_refl _) (by omega)
            first
            | exact this.1
            | exact this.2))]
      exact ih (j + 1) q (by omega) (by omega) hq
        (fun k hk hk2 => hnb k (by omega) hk2)
        (fun k hk hk2 => hbad k (by omega) hk2)

theorem numberParams_err : ∀ (raws : List RawParam) (cnt : Nat) (acc : List NamedParam),
    (raws.any fun p => isNumericName p.name) = true →
    ∃ pos, numberParams raws cnt acc = Except.error (ParseErr.mixedNumbered pos) := by
  intro raws
  induction raws with
  | nil => intro cnt acc h; simp at h
  | cons p rest ih =>
    intro cnt acc h
    rw [numberParams]
    by_cases hp : isNumericName p.name = true
    · exact ⟨p.startPos, by rw [if_pos hp]⟩
    · rw [if_neg hp]
      rw [List.any_cons] at h
      rcases Bool.or_eq_true_iff.mp h with h1 | h1
      · exact absurd h1 hp
      · exact ih (cnt + 1) _ h1

theorem parse_scan_err (sql : List Char) (e : ParseErr)
    (h : scanParams sql = Except.error e) : parse sql = Except.error e := by
  simp [parse, h]


/-- C10: whenever the detected markers of a statement use more than one
marker style, `parse` fails, even though statements using each single
style alone parse successfully. -/
theorem claim_C10_mixed_styles :
    (∀ (sql : List Char) (raws : List RawParam),
      scanParams sql = Except.ok raws →
      1 < (distinctTypes raws).length →
      isErr (parse sql) = true)
    ∧ isErr (parse "SELECT :a, &b".data) = true
    ∧ isErr (parse "SELECT :a".data) = false
    ∧ isErr (parse "SELECT &b".data) = false := by
  refine ⟨?_, by decide, by decide, by decide⟩
  · intro sql raws hscan htypes
    cases hnp : numberParams raws 0 [] with
    | error e => simp [parse, hscan, hnp, isErr]
    | ok nps => simp [parse, hscan, hnp, htypes, isErr]

/-- C10 witness: the two single-style statements are individually valid,
but their styles mixed in one statement make `parse` fail. -/
theorem claim_C10_mixed_styles_witness :
    scanParams "SELECT :a, &b".data = Except.ok
      [RawParam.mk "a".data 7 9 PType.colon, RawParam.mk "b".data 11 13 PType.amp]
    ∧ 1 < (distinctTypes [RawParam.mk "a".data 7 9 PType.colon,
        RawParam.mk "b".data 11 13 PType.amp]).length
    ∧ isErr (parse "SELECT :a, &b".data) = true :=
  ⟨by decide, by decide,
   claim_C10_mixed_styles.1 "SELECT :a, &b".data
     [RawParam.mk "a".data 7 9 PType.colon, RawParam.mk "b".data 11 13 PType.amp]
     (by decide) (by decide)⟩

theorem charAt_offset (pre tail : List Char) (k : Nat) :
    charAt (pre ++ tail) (pre.length + k) = charAt tail k := by
  rw [charAt, charAt, List.get?_append_right (by omega)]
  congr 1
  omega

theorem matchesAt_offset (pre tail : List Char) (k : Nat) (pat : List Char) :
    matchesAt (pre ++ tail) (pre.length + k) pat = matchesAt tail k pat := by
  rw [matchesAt, matchesAt, List.drop_append k]

theorem scanStop_fuel_irrel (sql stop : List Char) :
    ∀ (f1 : Nat), ∀ (p f2 : Nat), sql.length - p < f1 → sql.length - p < f2 →
    scanStopF sql stop f1 p = scanStopF sql stop f2 p := by
  intro f1
  induction f1 with
  | zero => intro p f2 h1 h2; omega
  | succ f1 ih =>
    intro p f2 h1 h2
    cases f2 with
    | zero => omega
    | succ g =>
      rw [scanStopF, scanStopF]
      by_cases hlen : sql.length ≤ p
      · rw [if_pos hlen, if_pos hlen]
      · rw [if_neg hlen, if_neg hlen]
        by_cases hm : matchesAt sql p stop = true
        · rw [if_pos hm, if_pos hm]
        · rw [if_neg hm, if_neg hm]
          exact ih (p + 1) g (by omega) (by omega)

theorem scanStop_offset (pre tail stop : List Char) :
    ∀ (fuel p : Nat),
    scanStopF (pre ++ tail) stop fuel (pre.length + p) =
      Option.map (fun q => pre.length + q) (scanStopF tail stop fuel p) := by
  intro fuel
  induction fuel with
  | zero => intro p; rfl
  | succ fuel ih =>
    intro p
    rw [scanStopF, scanStopF]
    by_cases hlen : tail.length ≤ p
    · rw [if_pos (by simp only [List.length_append]; omega), if_pos hlen]
      rfl
    · rw [if_neg (by simp only [List.length_append]; omega), if_neg hlen]
      rw [matchesAt_offset]
      by_cases hm : matchesAt tail p stop = true
      · rw [if_pos hm, if_pos hm]
        rfl
      · rw [if_neg hm, if_neg hm]
        rw [show pre.length + p + 1 = pre.length + (p + 1) from by omega]
        exact ih (p + 1)

theorem skipGo_offset (pre tail : List Char) : ∀ (skips : List Skip) (pos : Nat),
    skipGo (pre ++ tail) skips (pre.length + pos) = pre.length + skipGo tail skips pos := by
  intro skips
  induction skips with
  | nil => intro pos; rfl
  | cons sk rest ih =>
    intro pos
    rw [skipGo, skipGo, matchesAt_offset]
    by_cases hm : matchesAt tail pos sk.start = true
    · rw [if_pos hm, if_pos hm]
      rw [show pre.length + pos + sk.start.length = pre.length + (pos + sk.start.length)
        from by omega]
      rw [scanStop_offset]
      rw [scanStop_fuel_irrel tail sk.stop ((pre ++ tail).length + 1)
        (pos + sk.start.length) (tail.length + 1)
        (by simp only [List.length_append]; omega) (by omega)]
      cases hs : scanStopF tail sk.stop (tail.length + 1) (pos + sk.start.length) with
      | none =>
        show (pre ++ tail).length = pre.length + tail.length
        simp
      | some q =>
        show skipGo (pre ++ tail) rest (pre.length + q + sk.stop.length) = _
        rw [show pre.length + q + sk.stop.length = pre.length + (q + sk.stop.length)
          from by omega]
        exact ih (q + sk.stop.length)
    · rw [if_neg hm, if_neg hm]
      exact ih pos

theorem skip_offset (pre tail : List Char) (p : Nat) :
    skipCommentsAndQuotes (pre ++ tail) (pre.length + p) =
      pre.length + skipCommentsAndQuotes tail p :=
  skipGo_offset pre tail SKIPS p

theorem sepScanF_le_len (sql : List Char) : ∀ (fuel j : Nat), j ≤ sql.length →
    sepScanF sql fuel j ≤ sql.length := by
  intro fuel
  induction fuel with
  | zero => intro j hj; exact hj
  | succ fuel ih =>
    intro j hj
    rw [sepScanF]
    cases hc : charAt sql j with
    | none => exact hj
    | some c =>
      have hlt := charAt_some_lt sql j c hc
      by_cases hsep : isParamSeparator c = true
      · simp only [hsep, if_true]
        exact hj
      · simp only [hsep, Bool.false_eq_true, if_false]
        exact ih (j + 1) (by omega)

theorem skipFixF_fuel_irrel (sql : List Char) : ∀ (f1 : Nat), ∀ (i f2 : Nat),
    sql.length - i < f1 → sql.length - i < f2 →
    skipFixF sql f1 i = skipFixF sql f2 i := by
  intro f1
  induction f1 with
  | zero => intro i f2 h1 h2; omega
  | succ f1 ih =>
    intro i f2 h1 h2
    cases f2 with
    | zero => omega
    | succ g =>
      rw [skipFixF, skipFixF]
      by_cases hlen : sql.length ≤ i
      · rw [if_pos hlen, if_pos hlen]
      · rw [if_neg hlen, if_neg hlen]
        by_cases hlt : i < skipCommentsAndQuotes sql i
        · rw [if_pos hlt, if_pos hlt]
          have hle := skip_le_len sql i (by omega)
          exact ih (skipCommentsAndQuotes sql i) g (by omega) (by omega)
        · rw [if_neg hlt, if_neg hlt]

/-- The iteration of the skip-to-fixpoint loop at the head of the
scanner's main loop: `SkipReach sql i a` holds when repeatedly applying
`skipCommentsAndQuotes` starting from position `i` — exactly as the
loop does while the position is in bounds and still advancing — visits
position `a`. -/
inductive SkipReach (sql : List Char) : Nat → Nat → Prop where
  | refl (i : Nat) : SkipReach sql i i
  | step (i j : Nat) : SkipReach sql i j → j < sql.length →
      j < skipCommentsAndQuotes sql j → SkipReach sql i (skipCommentsAndQuotes sql j)

theorem skipReach_le (sql : List Char) (i a : Nat) (h : SkipReach sql i a) : i ≤ a := by
  induction h with
  | refl => exact Nat.le_refl _
  | step j hr hlt hadv ih => omega

theorem skipFix_of_reach (sql : List Char) (i a : Nat) (h : SkipReach sql i a) :
    skipFixF sql (sql.length + 1) i = skipFixF sql (sql.length + 1) a := by
  induction h with
  | refl => rfl
  | step j hr hlt hadv ih =>
    rw [ih]
    rw [show sql.length + 1 = sql.length + 1 from rfl]
    conv_lhs => rw [skipFixF]
    rw [if_neg (by omega), if_pos hadv]
    exact skipFixF_fuel_irrel sql sql.length (skipCommentsAndQuotes sql j)
      (sql.length + 1) (by omega) (by omega)

theorem skipFix_to_end_at (sql : List Char) (fuel a : Nat) (ha : a < sql.length)
    (h : skipCommentsAndQuotes sql a = sql.length) :
    skipFixF sql (fuel + 1) a = sql.length := by
  rw [skipFixF, if_neg (by omega), h, if_pos ha]
  exact skipFixF_at_end sql fuel sql.length (Nat.le_refl _)

theorem scanLoopF_end (sql : List Char) (i : Nat)
    (hfix : skipFixF sql (sql.length + 1) i = sql.length) :
    ∀ fuel, scanLoopF sql fuel i = Except.ok [] := by
  intro fuel
  cases fuel with
  | zero => rfl
  | succ fuel =>
    rw [scanLoopF]
    by_cases hlen : sql.length ≤ i
    · rw [if_pos hlen]
    · rw [if_neg hlen]
      show (match charAt sql (skipFixF sql (sql.length + 1) i) with
        | none => Except.ok []
        | some c => _) = Except.ok []
      rw [hfix, charAt_none_of_le sql sql.length (Nat.le_refl _)]

theorem lineStop_none (inner : List Char) (hin : '\n' ∉ inner) (fuel : Nat) :
    scanStopF ('-' :: '-' :: inner) ['\n'] fuel 2 = none := by
  apply scanStop_none_of
  intro k hk
  apply matchesAt_one_false
  intro hc
  have hlt := charAt_some_lt _ _ _ hc
  simp only [List.length_cons] at hlt
  rcases Nat.exists_eq_add_of_le hk with ⟨m, hm⟩
  subst hm
  rw [show 2 + m = m + 1 + 1 from by omega, charAt_cons_succ, charAt_cons_succ] at hc
  exact hin (List.get?_mem hc)

theorem skip_line_unterminated (inner : List Char) (hin : '\n' ∉ inner) :
    skipCommentsAndQuotes ('-' :: '-' :: inner) 0 = ('-' :: '-' :: inner).length := by
  set sql := '-' :: '-' :: inner with hsql
  have hc0 : charAt sql 0 = some '-' := rfl
  have hc1 : charAt sql 1 = some '-' := rfl
  have hnone := lineStop_none inner hin (sql.length + 1)
  rw [← hsql] at hnone
  rw [skipCommentsAndQuotes, SKIPS]
  rw [skipGo, if_neg (by rw [matchesAt_ne_of_charAt sql 0 '-' '\'' [] hc0 (by decide)]; simp)]
  rw [skipGo, if_neg (by rw [matchesAt_ne_of_charAt sql 0 '-' '"' [] hc0 (by decide)]; simp)]
  rw [skipGo, if_pos ((matchesAt_two sql 0 '-' '-').mpr ⟨hc0, hc1⟩)]
  have hnone2 : scanStopF sql ['\n'] (sql.length + 1) (0 + (['-', '-'] : List Char).length) =
      none := by
    simpa using hnone
  rw [hnone2]

/-- One iteration of the scanner's main loop, as a step relation on
positions: `scanStepB sql j k = true` when the loop body run at
position `j` continues at position `k`.  The branches mirror
`scanLoopF`: the `::` cast skip, a brace marker closed in bounds, a
plain marker scan, and a non-marker character. -/
def scanStepB (sql : List Char) (j k : Nat) : Bool :=
  if sql.length ≤ j then false
  else
    let i2 := skipFixF sql (sql.length + 1) j
    match charAt sql i2 with
    | none => false
    | some c =>
      if c = ':' ∨ c = '&' ∨ c = '$' then
        if matchesAt sql i2 [':', ':'] then decide (k = i2 + 2)
        else if matchesAt sql i2 [':', '{'] then
          match braceScanF sql (sql.length + 1) (i2 + 1) with
          | Except.error _ => false
          | Except.ok jb => decide (¬ sql.length ≤ jb) && decide (k = jb + 1)
        else decide (k = sepScanF sql (sql.length + 1) (i2 + 1))
      else decide (k = i2 + 1)

/-- The positions the scanner's main loop visits starting from `i`. -/
inductive ScanReach (sql : List Char) : Nat → Nat → Prop where
  | refl (i : Nat) : ScanReach sql i i
  | next (i j k : Nat) : ScanReach sql i j → scanStepB sql j k = true → ScanReach sql i k

theorem scanStepB_lt (sql : List Char) (j k : Nat) (hs : scanStepB sql j k = true) :
    j < k ∧ k ≤ sql.length := by
  rw [scanStepB] at hs
  by_cases hlen : sql.length ≤ j
  · rw [if_pos hlen] at hs; exact absurd hs (by simp)
  · rw [if_neg hlen] at hs
    simp only [] at hs
    set i2 := skipFixF sql (sql.length + 1) j with hi2
    have hige : j ≤ i2 := skipFixF_ge sql _ j
    cases hc : charAt sql i2 with
    | none => rw [hc] at hs; exact absurd hs (by simp)
    | some c =>
      rw [hc] at hs
      simp only [] at hs
      have hi2lt : i2 < sql.length := charAt_some_lt sql i2 c hc
      by_cases hmk : c = ':' ∨ c = '&' ∨ c = '$'
      · rw [if_pos hmk] at hs
        by_cases hcc : matchesAt sql i2 [':', ':'] = true
        · rw [if_pos hcc] at hs
          have hk := of_decide_eq_true hs
          have hle := matchesAt_le sql i2 [':', ':'] (by simp) hcc
          simp only [List.length_cons, List.length_nil] at hle
          omega
        · rw [if_neg hcc] at hs
          by_cases hbr : matchesAt sql i2 [':', '{'] = true
          · rw [if_pos hbr] at hs
            cases hbs : braceScanF sql (sql.length + 1) (i2 + 1) with
            | error e2 => rw [hbs] at hs; exact absurd hs (by simp)
            | ok jb =>
              rw [hbs] at hs
              simp only [] at hs
              rw [Bool.and_eq_true] at hs
              have hjb : ¬ sql.length ≤ jb := of_decide_eq_true hs.1
              have hk : k = jb + 1 := of_decide_eq_true hs.2
              have hge := braceScanF_ge sql (sql.length + 1) (i2 + 1) jb hbs
              omega
          · rw [if_neg hbr] at hs
            have hk := of_decide_eq_true hs
            have hge := sepScanF_ge sql (sql.length + 1) (i2 + 1)
            have hle := sepScanF_le_len sql (sql.length + 1) (i2 + 1) (by omega)
            omega
      · rw [if_neg hmk] at hs
        have hk := of_decide_eq_true hs
        omega

theorem scanLoopF_fuel_irrel (sql : List Char) : ∀ (f1 : Nat), ∀ (i f2 : Nat),
    sql.length - i < f1 → sql.length - i < f2 →
    scanLoopF sql f1 i = scanLoopF sql f2 i := by
  intro f1
  induction f1 with
  | zero => intro i f2 h1 h2; omega
  | succ f1 ih =>
    intro i f2 h1 h2
    cases f2 with
    | zero => omega
    | succ g =>
      rw [scanLoopF]
      conv_rhs => rw [scanLoopF]
      by_cases hlen : sql.length ≤ i
      · rw [if_pos hlen, if_pos hlen]
      · rw [if_neg hlen, if_neg hlen]
        simp only []
        set i2 := skipFixF sql (sql.length + 1) i with hi2
        have hige : i ≤ i2 := skipFixF_ge sql _ i
        cases hc : charAt sql i2 with
        | none => simp only [hc]
        | some c =>
          simp only [hc]
          have hi2lt : i2 < sql.length := charAt_some_lt sql i2 c hc
          by_cases hmk : c = ':' ∨ c = '&' ∨ c = '$'
          · rw [if_pos hmk, if_pos hmk]
            by_cases hcc : matchesAt sql i2 [':', ':'] = true
            · rw [if_pos hcc, if_pos hcc]
              exact ih (i2 + 2) g (by omega) (by omega)
            · rw [if_neg hcc, if_neg hcc]
              by_cases hbr : matchesAt sql i2 [':', '{'] = true
              · rw [if_pos hbr, if_pos hbr]
                cases hbs : braceScanF sql (sql.length + 1) (i2 + 1) with
                | error e2 => simp only [hbs]
                | ok jb =>
                  simp only [hbs]
                  have hge := braceScanF_ge sql (sql.length + 1) (i2 + 1) jb hbs
                  by_cases hjb : sql.length ≤ jb
                  · rw [if_pos hjb, if_pos hjb]
                  · rw [if_neg hjb, if_neg hjb]
                    rw [ih (jb + 1) g (by omega) (by omega)]
              · rw [if_neg hbr, if_neg hbr]
                have hge := sepScanF_ge sql (sql.length + 1) (i2 + 1)
                rw [ih (sepScanF sql (sql.length + 1) (i2 + 1)) g (by omega) (by omega)]
          · rw [if_neg hmk, if_neg hmk]
            exact ih (i2 + 1) g (by omega) (by omega)

theorem scanStep_err_prop (sql : List Char) (j k : Nat)
    (hs : scanStepB sql j k = true) (fuel : Nat) (e : ParseErr)
    (h : scanLoopF sql fuel k = Except.error e) :
    scanLoopF sql (fuel + 1) j = Except.error e := by
  rw [scanStepB] at hs
  rw [scanLoopF]
  by_cases hlen : sql.length ≤ j
  · rw [if_pos hlen] at hs; exact absurd hs (by simp)
  · rw [if_neg hlen] at hs
    rw [if_neg hlen]
    simp only [] at hs ⊢
    set i2 := skipFixF sql (sql.length + 1) j with hi2
    cases hc : charAt sql i2 with
    | none => rw [hc] at hs; exact absurd hs (by simp)
    | some c =>
      rw [hc] at hs
      simp only [hc]
      simp only [] at hs
      by_cases hmk : c = ':' ∨ c = '&' ∨ c = '$'
      · rw [if_pos hmk] at hs ⊢
        by_cases hcc : matchesAt sql i2 [':', ':'] = true
        · rw [if_pos hcc] at hs ⊢
          have hk : k = i2 + 2 := of_decide_eq_true hs
          rw [hk] at h
          exact h
        · rw [if_neg hcc] at hs ⊢
          by_cases hbr : matchesAt sql i2 [':', '{'] = true
          · rw [if_pos hbr] at hs ⊢
            cases hbs : braceScanF sql (sql.length + 1) (i2 + 1) with
            | error e2 => rw [hbs] at hs; exact absurd hs (by simp)
            | ok jb =>
              rw [hbs] at hs
              simp only [hbs]
              simp only [] at hs
              rw [Bool.and_eq_true] at hs
              have hjb : ¬ sql.length ≤ jb := of_decide_eq_true hs.1
              have hk : k = jb + 1 := of_decide_eq_true hs.2
              rw [hk] at h
              rw [if_neg hjb]
              rw [h]
          · rw [if_neg hbr] at hs ⊢
            have hk : k = sepScanF sql (sql.length + 1) (i2 + 1) := of_decide_eq_true hs
            rw [hk] at h
            rw [h]
      · rw [if_neg hmk] at hs ⊢
        have hk : k = i2 + 1 := of_decide_eq_true hs
        rw [hk] at h
        exact h

theorem scanStep_ok_decomp (sql : List Char) (j k : Nat) (fuel : Nat)
    (raws : List RawParam) (hs : scanStepB sql j k = true)
    (h : scanLoopF sql (fuel + 1) j = Except.ok raws) :
    ∃ r0 r1, raws = r0 ++ r1 ∧ (∀ p ∈ r0, p.startPos < k) ∧
      scanLoopF sql fuel k = Except.ok r1 := by
  rw [scanStepB] at hs
  rw [scanLoopF] at h
  by_cases hlen : sql.length ≤ j
  · rw [if_pos hlen] at hs; exact absurd hs (by simp)
  · rw [if_neg hlen] at hs
    rw [if_neg hlen] at h
    simp only [] at hs h
    set i2 := skipFixF sql (sql.length + 1) j with hi2
    cases hc : charAt sql i2 with
    | none => rw [hc] at hs; exact absurd hs (by simp)
    | some c =>
      rw [hc] at hs h
      simp only [] at hs h
      by_cases hmk : c = ':' ∨ c = '&' ∨ c = '$'
      · rw [if_pos hmk] at hs h
        by_cases hcc : matchesAt sql i2 [':', ':'] = true
        · rw [if_pos hcc] at hs h
          have hk : k = i2 + 2 := of_decide_eq_true hs
          exact ⟨[], raws, rfl, by simp, by rw [hk]; exact h⟩
        · rw [if_neg hcc] at hs h
          by_cases hbr : matchesAt sql i2 [':', '{'] = true
          · rw [if_pos hbr] at hs h
            cases hbs : braceScanF sql (sql.length + 1) (i2 + 1) with
            | error e2 => rw [hbs] at hs; exact absurd hs (by simp)
            | ok jb =>
              rw [hbs] at hs h
              simp only [] at hs h
              rw [Bool.and_eq_true] at hs
              have hjb : ¬ sql.length ≤ jb := of_decide_eq_true hs.1
              have hk : k = jb + 1 := of_decide_eq_true hs.2
              have hge := braceScanF_ge sql (sql.length + 1) (i2 + 1) jb hbs
              rw [if_neg hjb] at h
              cases hrec : scanLoopF sql fuel (jb + 1) with
              | error e2 => rw [hrec] at h; cases h
              | ok rest =>
                rw [hrec] at h
                simp only [] at h
                by_cases hpush : i2 + 3 < jb
                · rw [if_pos hpush] at h
                  cases h
                  refine ⟨[RawParam.mk ((sql.drop (i2 + 2)).take (jb - (i2 + 2))) i2
                    (jb + 1) PType.braces], rest, rfl, ?_, by rw [hk]; exact hrec⟩
                  intro p hp
                  rcases List.mem_singleton.mp hp with h1
                  rw [h1]
                  show i2 < k
                  omega
                · rw [if_neg hpush] at h
                  have hre : rest = raws := Except.ok.inj h
                  subst hre
                  exact ⟨[], rest, rfl, by simp, by rw [hk]; exact hrec⟩
          · rw [if_neg hbr] at hs h
            have hk : k = sepScanF sql (sql.length + 1) (i2 + 1) := of_decide_eq_true hs
            have hge := sepScanF_ge sql (sql.length + 1) (i2 + 1)
            cases hrec : scanLoopF sql fuel (sepScanF sql (sql.length + 1) (i2 + 1)) with
            | error e2 => rw [hrec] at h; cases h
            | ok rest =>
              rw [hrec] at h
              simp only [] at h
              by_cases hpush : i2 + 1 < sepScanF sql (sql.length + 1) (i2 + 1)
              · rw [if_pos hpush] at h
                cases h
                refine ⟨[RawParam.mk ((sql.drop (i2 + 1)).take
                    (sepScanF sql (sql.length + 1) (i2 + 1) - (i2 + 1))) i2
                    (sepScanF sql (sql.length + 1) (i2 + 1)) (markerType c)], rest, rfl,
                  ?_, by rw [hk]; exact hrec⟩
                intro p hp
                rcases List.mem_singleton.mp hp with h1
                rw [h1]
                show i2 < k
                omega
              · rw [if_neg hpush] at h
                have hre : rest = raws := Except.ok.inj h
                subst hre
                exact ⟨[], rest, rfl, by simp, by rw [hk]; exact hrec⟩
      · rw [if_neg hmk] at hs h
        have hk : k = i2 + 1 := of_decide_eq_true hs
        exact ⟨[], raws, rfl, by simp, by rw [hk]; exact h⟩


theorem scanLoopF_brace_err_at (sql : List Char) (fuel a : Nat) (e : ParseErr)
    (ha : a < sql.length)
    (hfix : skipFixF sql (sql.length + 1) a = a)
    (hc0 : charAt sql a = some ':')
    (hcc : matchesAt sql a [':', ':'] = false)
    (hbr : matchesAt sql a [':', '{'] = true)
    (hbs : braceScanF sql (sql.length + 1) (a + 1) = Except.error e) :
    scanLoopF sql (fuel + 1) a = Except.error e := by
  rw [scanLoopF, if_neg (by omega)]
  simp only [hfix, hc0, hcc, hbr]
  rw [hbs]
  simp

theorem scanLoopF_brace_nonterm_at (sql : List Char) (fuel a : Nat)
    (ha : a < sql.length)
    (hfix : skipFixF sql (sql.length + 1) a = a)
    (hc0 : charAt sql a = some ':')
    (hcc : matchesAt sql a [':', ':'] = false)
    (hbr : matchesAt sql a [':', '{'] = true)
    (hbs : braceScanF sql (sql.length + 1) (a + 1) = Except.ok sql.length) :
    scanLoopF sql (fuel + 1) a = Except.error (ParseErr.nonTerminated sql.length) := by
  rw [scanLoopF, if_neg (by omega)]
  simp only [hfix, hc0, hcc, hbr]
  rw [hbs]
  simp


theorem scanReach_err (sql : List Char) (i a : Nat) (h : ScanReach sql i a) (e : ParseErr) :
    scanLoopF sql (sql.length + 1) a = Except.error e →
    scanLoopF sql (sql.length + 1) i = Except.error e := by
  induction h with
  | refl => exact id
  | next j k hr hs ih =>
    intro ha
    apply ih
    have h2 := scanStep_err_prop sql j k hs (sql.length + 1) e ha
    rw [scanLoopF_fuel_irrel sql (sql.length + 1) j (sql.length + 1 + 1) (by omega) (by omega)]
    exact h2

theorem scanReach_decomp (sql : List Char) (i a : Nat) (h : ScanReach sql i a)
    (raws : List RawParam) :
    scanLoopF sql (sql.length + 1) i = Except.ok raws →
    ∃ r0 r1, raws = r0 ++ r1 ∧ (∀ p ∈ r0, p.startPos < a) ∧
      scanLoopF sql (sql.length + 1) a = Except.ok r1 := by
  induction h with
  | refl => intro hscan; exact ⟨[], raws, rfl, by simp, hscan⟩
  | next j k hr hs ih =>
    intro hscan
    obtain ⟨r0, r1, hr01, hlt0, hrec⟩ := ih hscan
    rw [scanLoopF_fuel_irrel sql (sql.length + 1) j (sql.length + 1 + 1)
      (by omega) (by omega)] at hrec
    obtain ⟨s0, s1, hs01, hslt, hsrec⟩ := scanStep_ok_decomp sql j k (sql.length + 1) r1 hs hrec
    have hjk := scanStepB_lt sql j k hs
    refine ⟨r0 ++ s0, s1, by rw [hr01, hs01, List.append_assoc], ?_, hsrec⟩
    intro p hp
    rcases List.mem_append.mp hp with h1 | h1
    · have := hlt0 p h1
      omega
    · exact hslt p h1

theorem scanStep_ok_lift (sql : List Char) (j k fuel : Nat)
    (hs : scanStepB sql j k = true) (r1 : List RawParam)
    (h : scanLoopF sql fuel k = Except.ok r1) :
    ∃ r0, scanLoopF sql (fuel + 1) j = Except.ok (r0 ++ r1) ∧ ∀ p ∈ r0, p.startPos < k := by
  rw [scanStepB] at hs
  rw [scanLoopF]
  by_cases hlen : sql.length ≤ j
  · rw [if_pos hlen] at hs; exact absurd hs (by simp)
  · rw [if_neg hlen] at hs
    rw [if_neg hlen]
    simp only [] at hs ⊢
    set i2 := skipFixF sql (sql.length + 1) j with hi2
    cases hc : charAt sql i2 with
    | none => rw [hc] at hs; exact absurd hs (by simp)
    | some c =>
      rw [hc] at hs
      simp only [hc]
      simp only [] at hs
      by_cases hmk : c = ':' ∨ c = '&' ∨ c = '$'
      · rw [if_pos hmk] at hs ⊢
        by_cases hcc : matchesAt sql i2 [':', ':'] = true
        · rw [if_pos hcc] at hs ⊢
          have hk : k = i2 + 2 := of_decide_eq_true hs
          rw [hk] at h
          exact ⟨[], by simpa using h, by simp⟩
        · rw [if_neg hcc] at hs ⊢
          by_cases hbr : matchesAt sql i2 [':', '{'] = true
          · rw [if_pos hbr] at hs ⊢
            cases hbs : braceScanF sql (sql.length + 1) (i2 + 1) with
            | error e2 => rw [hbs] at hs; exact absurd hs (by simp)
            | ok jb =>
              rw [hbs] at hs
              simp only [hbs]
              simp only [] at hs
              rw [Bool.and_eq_true] at hs
              have hjb : ¬ sql.length ≤ jb := of_decide_eq_true hs.1
              have hk : k = jb + 1 := of_decide_eq_true hs.2
              have hge := braceScanF_ge sql (sql.length + 1) (i2 + 1) jb hbs
              rw [if_neg hjb]
              rw [hk] at h
              rw [h]
              by_cases hpush : i2 + 3 < jb
              · refine ⟨[RawParam.mk ((sql.drop (i2 + 2)).take (jb - (i2 + 2))) i2
                  (jb + 1) PType.braces], by simp [hpush], ?_⟩
                intro p hp
                rcases List.mem_singleton.mp hp with h1
                rw [h1, hk]
                show i2 < jb + 1
                omega
              · exact ⟨[], by simp [hpush], by simp⟩
          · rw [if_neg hbr] at hs ⊢
            have hk : k = sepScanF sql (sql.length + 1) (i2 + 1) := of_decide_eq_true hs
            have hge := sepScanF_ge sql (sql.length + 1) (i2 + 1)
            rw [← hk]
            rw [h]
            by_cases hpush : i2 + 1 < k
            · refine ⟨[RawParam.mk ((sql.drop (i2 + 1)).take (k - (i2 + 1))) i2
                k (markerType c)], by simp [hpush], ?_⟩
              intro p hp
              rcases List.mem_singleton.mp hp with h1
              rw [h1]
              show i2 < k
              omega
            · exact ⟨[], by simp [hpush], by simp⟩
      · rw [if_neg hmk] at hs ⊢
        have hk : k = i2 + 1 := of_decide_eq_true hs
        rw [hk] at h
        exact ⟨[], by simpa using h, by simp⟩

theorem scanReach_ok_lift (sql : List Char) (i a : Nat) (h : ScanReach sql i a) :
    ∀ r1, scanLoopF sql (sql.length + 1) a = Except.ok r1 →
    ∃ r0, scanLoopF sql (sql.length + 1) i = Except.ok (r0 ++ r1) ∧
      ∀ p ∈ r0, p.startPos < a := by
  induction h with
  | refl => intro r1 ha; exact ⟨[], by simpa using ha, by simp⟩
  | next j k hr hs ih =>
    intro r1 ha
    obtain ⟨s0, hj, hstep⟩ := scanStep_ok_lift sql j k (sql.length + 1) hs r1 ha
    rw [← scanLoopF_fuel_irrel sql (sql.length + 1) j (sql.length + 1 + 1)
      (by omega) (by omega)] at hj
    obtain ⟨t0, hi, htlt⟩ := ih (s0 ++ r1) hj
    have hjk := scanStepB_lt sql j k hs
    refine ⟨t0 ++ s0, by rw [List.append_assoc]; exact hi, ?_⟩
    intro p hp
    rcases List.mem_append.mp hp with h1 | h1
    · have := htlt p h1
      omega
    · exact hstep p h1


/-- C7: region skipping.  The skip function is total, never moves
backwards, and never scans past the end of input; whenever the scan
reaches the start of a single-quoted string, double-quoted identifier,
line comment, or block comment — at any position of the statement —
the skip step jumps past the whole region and no parameter marker is
extracted from inside it: every extracted marker starts before the
position the scan arrived from or after the region; and an
unterminated string, line comment, or block comment reached by the
scan makes the scan run to end-of-input, so the statement parses with
only the markers found before the region and no error. -/
theorem claim_C7_skip_regions :
    (∀ (sql : List Char) (pos : Nat),
      pos ≤ skipCommentsAndQuotes sql pos
      ∧ (pos ≤ sql.length → skipCommentsAndQuotes sql pos ≤ sql.length))
    ∧ (∀ (qc : Char), qc = '\'' ∨ qc = '"' →
        ∀ (pre inner rest : List Char), qc ∉ inner →
        ∀ i, ScanReach (pre ++ (qc :: inner ++ qc :: rest)) 0 i →
          SkipReach (pre ++ (qc :: inner ++ qc :: rest)) i pre.length →
          pre.length + (inner.length + 2) ≤
            skipCommentsAndQuotes (pre ++ (qc :: inner ++ qc :: rest)) pre.length
          ∧ ∀ raws, scanParams (pre ++ (qc :: inner ++ qc :: rest)) = Except.ok raws →
            ∀ p ∈ raws, p.startPos < i ∨ pre.length + (inner.length + 2) ≤ p.startPos)
    ∧ (∀ (pre inner rest : List Char), '\n' ∉ inner →
        ∀ i, ScanReach (pre ++ ('-' :: '-' :: inner ++ '\n' :: rest)) 0 i →
          SkipReach (pre ++ ('-' :: '-' :: inner ++ '\n' :: rest)) i pre.length →
          pre.length + (inner.length + 3) ≤
            skipCommentsAndQuotes (pre ++ ('-' :: '-' :: inner ++ '\n' :: rest)) pre.length
          ∧ ∀ raws, scanParams (pre ++ ('-' :: '-' :: inner ++ '\n' :: rest)) =
              Except.ok raws →
            ∀ p ∈ raws, p.startPos < i ∨ pre.length + (inner.length + 3) ≤ p.startPos)
    ∧ (∀ (pre inner rest : List Char),
        (∀ m, m < inner.length → matchesAt inner m ['*', '/'] = false) →
        ∀ i, ScanReach (pre ++ ('/' :: '*' :: inner ++ '*' :: '/' :: rest)) 0 i →
          SkipReach (pre ++ ('/' :: '*' :: inner ++ '*' :: '/' :: rest)) i pre.length →
          pre.length + (inner.length + 4) ≤
            skipCommentsAndQuotes (pre ++ ('/' :: '*' :: inner ++ '*' :: '/' :: rest))
              pre.length
          ∧ ∀ raws, scanParams (pre ++ ('/' :: '*' :: inner ++ '*' :: '/' :: rest)) =
              Except.ok raws →
            ∀ p ∈ raws, p.startPos < i ∨ pre.length + (inner.length + 4) ≤ p.startPos)
    ∧ (∀ (qc : Char), qc = '\'' ∨ qc = '"' → ∀ (pre inner : List Char), qc ∉ inner →
        ∀ i, ScanReach (pre ++ qc :: inner) 0 i →
          SkipReach (pre ++ qc :: inner) i pre.length →
          skipCommentsAndQuotes (pre ++ qc :: inner) pre.length = (pre ++ qc :: inner).length
          ∧ ∃ raws, scanParams (pre ++ qc :: inner) = Except.ok raws
              ∧ ∀ p ∈ raws, p.startPos < pre.length)
    ∧ (∀ (pre inner : List Char), '\n' ∉ inner →
        ∀ i, ScanReach (pre ++ '-' :: '-' :: inner) 0 i →
          SkipReach (pre ++ '-' :: '-' :: inner) i pre.length →
          skipCommentsAndQuotes (pre ++ '-' :: '-' :: inner) pre.length =
            (pre ++ '-' :: '-' :: inner).length
          ∧ ∃ raws, scanParams (pre ++ '-' :: '-' :: inner) = Except.ok raws
              ∧ ∀ p ∈ raws, p.startPos < pre.length)
    ∧ (∀ (pre inner : List Char),
        (∀ m, m < inner.length → matchesAt inner m ['*', '/'] = false) →
        ∀ i, ScanReach (pre ++ '/' :: '*' :: inner) 0 i →
          SkipReach (pre ++ '/' :: '*' :: inner) i pre.length →
          skipCommentsAndQuotes (pre ++ '/' :: '*' :: inner) pre.length =
            (pre ++ '/' :: '*' :: inner).length
          ∧ ∃ raws, scanParams (pre ++ '/' :: '*' :: inner) = Except.ok raws
              ∧ ∀ p ∈ raws, p.startPos < pre.length) := by
  have hregion : ∀ (tl : List Char) (K : Nat), K ≤ skipCommentsAndQuotes tl 0 →
      ∀ (pre : List Char) (i : Nat), ScanReach (pre ++ tl) 0 i →
      SkipReach (pre ++ tl) i pre.length →
      pre.length + K ≤ skipCommentsAndQuotes (pre ++ tl) pre.length
      ∧ ∀ raws, scanParams (pre ++ tl) = Except.ok raws →
        ∀ p ∈ raws, p.startPos < i ∨ pre.length + K ≤ p.startPos := by
    intro tl K hreg pre i hreach hskipr
    set sql := pre ++ tl with hsql
    have hskip0 : skipCommentsAndQuotes sql pre.length =
        pre.length + skipCommentsAndQuotes tl 0 := by
      have h := skip_offset pre tl 0
      rw [Nat.add_zero] at h
      rw [hsql]
      exact h
    constructor
    · omega
    · intro raws hscan p hp
      rw [scanParams] at hscan
      obtain ⟨r0, r1, hr01, hlt0, hrec⟩ := scanReach_decomp sql 0 i hreach raws hscan
      rw [hr01] at hp
      rcases List.mem_append.mp hp with h1 | h1
      · exact Or.inl (hlt0 p h1)
      · right
        have hge := scan_params_ge sql (sql.length + 1) i r1 hrec p h1
        have hfr := skipFix_of_reach sql i pre.length hskipr
        rw [hfr] at hge
        by_cases hpre_lt : pre.length < sql.length
        · have hgs := skipFixF_ge_skip sql sql.length pre.length hpre_lt
          omega
        · have hle : skipCommentsAndQuotes tl 0 ≤ tl.length :=
            skip_le_len tl 0 (Nat.zero_le _)
          have hlsql : sql.length = pre.length + tl.length := by
            rw [hsql, List.length_append]
          have hge2 := skipFixF_ge sql (sql.length + 1) pre.length
          omega
  have hunterm : ∀ (tl : List Char),
      skipCommentsAndQuotes tl 0 = tl.length →
      ∀ (pre : List Char) (i : Nat), ScanReach (pre ++ tl) 0 i →
      SkipReach (pre ++ tl) i pre.length →
      skipCommentsAndQuotes (pre ++ tl) pre.length = (pre ++ tl).length
      ∧ ∃ raws, scanParams (pre ++ tl) = Except.ok raws
          ∧ ∀ p ∈ raws, p.startPos < pre.length := by
    intro tl hterm pre i hreach hskipr
    set sql := pre ++ tl with hsql
    have hlsql : sql.length = pre.length + tl.length := by
      rw [hsql, List.length_append]
    have hskip0 : skipCommentsAndQuotes sql pre.length =
        pre.length + skipCommentsAndQuotes tl 0 := by
      have h := skip_offset pre tl 0
      rw [Nat.add_zero] at h
      rw [hsql]
      exact h
    have hskipend : skipCommentsAndQuotes sql pre.length = sql.length := by
      rw [hskip0, hterm]
      omega
    refine ⟨hskipend, ?_⟩
    have hfixa : skipFixF sql (sql.length + 1) pre.length = sql.length := by
      by_cases hpre_lt : pre.length < sql.length
      · exact skipFix_to_end_at sql sql.length pre.length hpre_lt hskipend
      · have hple : pre.length = sql.length := by
          have : pre.length ≤ sql.length := by omega
          omega
        rw [hple]
        exact skipFixF_at_end sql (sql.length + 1) sql.length (Nat.le_refl _)
    have hfr := skipFix_of_reach sql i pre.length hskipr
    have hloopi : scanLoopF sql (sql.length + 1) i = Except.ok [] :=
      scanLoopF_end sql i (by rw [hfr]; exact hfixa) (sql.length + 1)
    obtain ⟨r0, hsc, hlt⟩ := scanReach_ok_lift sql 0 i hreach [] hloopi
    have h2 := skipReach_le sql i pre.length hskipr
    refine ⟨r0, ?_, ?_⟩
    · rw [scanParams]
      simpa using hsc
    · intro p hp
      have := hlt p hp
      omega
  refine ⟨fun sql pos => ⟨skip_ge sql pos, skip_le_len sql pos⟩, ?_, ?_, ?_, ?_, ?_, ?_⟩
  · intro qc hq pre inner rest hin i hreach hskipr
    exact hregion (qc :: inner ++ qc :: rest) (inner.length + 2)
      (skip_quote_region qc hq inner rest hin) pre i hreach hskipr
  · intro pre inner rest hin i hreach hskipr
    exact hregion ('-' :: '-' :: inner ++ '\n' :: rest) (inner.length + 3)
      (skip_linecomment_region inner rest hin) pre i hreach hskipr
  · intro pre inner rest hin i hreach hskipr
    exact hregion ('/' :: '*' :: inner ++ '*' :: '/' :: rest) (inner.length + 4)
      (skip_blockcomment_region inner rest hin) pre i hreach hskipr
  · intro qc hq pre inner hin i hreach hskipr
    exact hunterm (qc :: inner) (skip_quote_unterminated qc hq inner hin) pre i hreach hskipr
  · intro pre inner hin i hreach hskipr
    exact hunterm ('-' :: '-' :: inner) (skip_line_unterminated inner hin) pre i hreach hskipr
  · intro pre inner hin i hreach hskipr
    exact hunterm ('/' :: '*' :: inner) (skip_block_unterminated inner hin) pre i hreach hskipr


/-- C7 witness: in `SELECT ':x' :a` the scan reaches the quoted region
at position 7, the skip step jumps past the whole region, and the only
extracted marker starts after it. -/
theorem claim_C7_skip_regions_witness :
    ('\'' ∉ ":x".data)
    ∧ ScanReach ("SELECT ".data ++ ('\'' :: ":x".data ++ '\'' :: " :a".data)) 0 7
    ∧ "SELECT ".data.length + (":x".data.length + 2) ≤
        skipCommentsAndQuotes ("SELECT ".data ++ ('\'' :: ":x".data ++ '\'' :: " :a".data))
          "SELECT ".data.length
    ∧ scanParams ("SELECT ".data ++ ('\'' :: ":x".data ++ '\'' :: " :a".data)) =
        Except.ok [RawParam.mk "a".data 12 14 PType.colon]
    ∧ ((RawParam.mk "a".data 12 14 PType.colon).startPos < 7 ∨
        "SELECT ".data.length + (":x".data.length + 2) ≤
          (RawParam.mk "a".data 12 14 PType.colon).startPos) := by
  have hreach : ScanReach ("SELECT ".data ++ ('\'' :: ":x".data ++ '\'' :: " :a".data)) 0 7 :=
    ScanReach.next 0 6 7 (ScanReach.next 0 5 6 (ScanReach.next 0 4 5 (ScanReach.next 0 3 4
      (ScanReach.next 0 2 3 (ScanReach.next 0 1 2 (ScanReach.next 0 0 1 (ScanReach.refl 0)
        (by decide)) (by decide)) (by decide)) (by decide)) (by decide)) (by decide))
      (by decide)
  have h := claim_C7_skip_regions.2.1 '\'' (Or.inl rfl) "SELECT ".data ":x".data " :a".data
    (by decide) 7 hreach (SkipReach.refl 7)
  refine ⟨by decide, hreach, h.1, by decide, ?_⟩
  exact h.2 [RawParam.mk "a".data 12 14 PType.colon] (by decide)
    (RawParam.mk "a".data 12 14 PType.colon) (List.mem_singleton.mpr rfl)


/-- C8: `parse` fails when a brace marker reached by the scan — at any
position of the statement — is never closed before end of input, when
such a brace marker's name contains `:` or `{`, and whenever a purely
numeric marker name occurs among the detected markers — in particular
whenever numeric and named markers are mixed. -/
theorem claim_C8_syntax_errors :
    (∀ (pre tail : List Char), (∀ c ∈ tail, c ≠ '}' ∧ c ≠ ':' ∧ c ≠ '{') →
      ScanReach (pre ++ ':' :: '{' :: tail) 0 pre.length →
      parse (pre ++ ':' :: '{' :: tail) =
        Except.error (ParseErr.nonTerminated (pre ++ ':' :: '{' :: tail).length))
    ∧ (∀ (pre good rest : List Char), (∀ c ∈ good, c ≠ '}' ∧ c ≠ ':' ∧ c ≠ '{') →
        ∀ bad : Char, bad = ':' ∨ bad = '{' →
        ScanReach (pre ++ (':' :: '{' :: good ++ bad :: rest)) 0 pre.length →
        parse (pre ++ (':' :: '{' :: good ++ bad :: rest)) =
          Except.error (ParseErr.invalidNameChar (pre.length + (good.length + 2))))
    ∧ (∀ (sql : List Char) (raws : List RawParam),
        scanParams sql = Except.ok raws →
        (raws.any fun p => isNumericName p.name) = true →
        isErr (parse sql) = true) := by
  refine ⟨?_, ?_, ?_⟩
  · intro pre tail htail hreach
    set sql := pre ++ ':' :: '{' :: tail with hsql
    have hlen : sql.length = pre.length + (tail.length + 2) := by
      rw [hsql]
      simp only [List.length_append, List.length_cons]
    have hoff : ∀ k, charAt sql (pre.length + k) = charAt (':' :: '{' :: tail) k := by
      intro k
      rw [hsql]
      exact charAt_offset pre _ k
    have hc0 : charAt sql pre.length = some ':' := by
      have h := hoff 0
      rw [Nat.add_zero] at h
      rw [h]
      rfl
    have hc1 : charAt sql (pre.length + 1) = some '{' := by
      rw [hoff 1]
      rfl
    have htailch : ∀ k, 2 ≤ k → k < tail.length + 2 →
        ∃ c ∈ tail, charAt sql (pre.length + k) = some c := by
      intro k h2 hk
      rcases charAt_mem tail (k - 2) (by omega) with ⟨c, hc, hm⟩
      refine ⟨c, hm, ?_⟩
      rw [hoff k]
      rcases Nat.exists_eq_add_of_le h2 with ⟨m, hm2⟩
      subst hm2
      rw [show 2 + m = m + 1 + 1 from by omega, charAt_cons_succ, charAt_cons_succ]
      rw [show 2 + m - 2 = m from by omega] at hc
      exact hc
    have hcc : matchesAt sql pre.length [':', ':'] = false := by
      by_contra hx
      rw [Bool.not_eq_false] at hx
      have h1 := ((matchesAt_two sql pre.length ':' ':').mp hx).2
      rw [hc1] at h1
      exact absurd (Option.some.inj h1) (by decide)
    have hbr : matchesAt sql pre.length [':', '{'] = true :=
      (matchesAt_two sql pre.length ':' '{').mpr ⟨hc0, hc1⟩
    have hfix : skipFixF sql (sql.length + 1) pre.length = pre.length :=
      skipFixF_id sql (sql.length + 1) pre.length
        (skip_id_of_char sql pre.length ':' hc0 (by decide) (by decide) (by decide)
          (by decide))
    have hbs : braceScanF sql (sql.length + 1) (pre.length + 1) = Except.ok sql.length := by
      apply braceScan_runs_off sql (sql.length + 1) (pre.length + 1) (by omega) (by omega)
      · intro k hk hk2 hx
        by_cases h1 : k = pre.length + 1
        · subst h1
          rw [hc1] at hx
          exact absurd (Option.some.inj hx) (by decide)
        · rcases htailch (k - pre.length) (by omega) (by omega) with ⟨c, hm, hcc2⟩
          rw [show pre.length + (k - pre.length) = k from by omega] at hcc2
          rw [hcc2] at hx
          exact (htail c hm).1 (Option.some.inj hx)
      · intro k hk hk2
        rcases htailch (k - pre.length) (by omega) (by omega) with ⟨c, hm, hcc2⟩
        rw [show pre.length + (k - pre.length) = k from by omega] at hcc2
        rw [hcc2]
        exact ⟨fun hx => (htail c hm).2.1 (Option.some.inj hx),
               fun hx => (htail c hm).2.2 (Option.some.inj hx)⟩
    have hserr : scanLoopF sql (sql.length + 1) pre.length =
        Except.error (ParseErr.nonTerminated sql.length) :=
      scanLoopF_brace_nonterm_at sql sql.length pre.length (by omega) hfix hc0 hcc hbr hbs
    have herr0 := scanReach_err sql 0 pre.length hreach _ hserr
    apply parse_scan_err
    rw [scanParams]
    exact herr0
  · intro pre good rest hgood bad hbad hreach
    set sql := pre ++ (':' :: '{' :: good ++ bad :: rest) with hsql
    have hlen : sql.length = pre.length + (good.length + 3 + rest.length) := by
      rw [hsql]
      simp only [List.length_append, List.length_cons]
      omega
    have hoff : ∀ k, charAt sql (pre.length + k) =
        charAt (':' :: '{' :: good ++ bad :: rest) k := by
      intro k
      rw [hsql]
      exact charAt_offset pre _ k
    have hc0 : charAt sql pre.length = some ':' := by
      have h := hoff 0
      rw [Nat.add_zero] at h
      rw [h]
      rfl
    have hc1 : charAt sql (pre.length + 1) = some '{' := by
      rw [hoff 1]
      rfl
    have hgoodch : ∀ k, 2 ≤ k → k < good.length + 2 →
        ∃ c ∈ good, charAt sql (pre.length + k) = some c := by
      intro k h2 hk
      rcases charAt_mem good (k - 2) (by omega) with ⟨c, hc, hm⟩
      refine ⟨c, hm, ?_⟩
      rw [hoff k]
      rw [charAt, List.get?_append (by simp only [List.length_cons]; omega)]
      rcases Nat.exists_eq_add_of_le h2 with ⟨m, hm2⟩
      subst hm2
      rw [show 2 + m = m + 1 + 1 from by omega, List.get?_cons_succ, List.get?_cons_succ]
      rw [show 2 + m - 2 = m from by omega] at hc
      exact hc
    have hcq : charAt sql (pre.length + (good.length + 2)) = some bad := by
      rw [hoff (good.length + 2), charAt, List.get?_append_right (by simp)]
      simp
    have hcc : matchesAt sql pre.length [':', ':'] = false := by
      by_contra hx
      rw [Bool.not_eq_false] at hx
      have h1 := ((matchesAt_two sql pre.length ':' ':').mp hx).2
      rw [hc1] at h1
      exact absurd (Option.some.inj h1) (by decide)
    have hbr : matchesAt sql pre.length [':', '{'] = true :=
      (matchesAt_two sql pre.length ':' '{').mpr ⟨hc0, hc1⟩
    have hfix : skipFixF sql (sql.length + 1) pre.length = pre.length :=
      skipFixF_id sql (sql.length + 1) pre.length
        (skip_id_of_char sql pre.length ':' hc0 (by decide) (by decide) (by decide)
          (by decide))
    have hbs : braceScanF sql (sql.length + 1) (pre.length + 1) =
        Except.error (ParseErr.invalidNameChar (pre.length + (good.length + 2))) := by
      apply braceScan_err sql (sql.length + 1) (pre.length + 1)
        (pre.length + (good.length + 2)) (by omega) (by omega)
      · rcases hbad with hb | hb
        · rw [hb] at hcq
          exact Or.inl hcq
        · rw [hb] at hcq
          exact Or.inr hcq
      · intro k hk hk2 hx
        by_cases h1 : k = pre.length + 1
        · subst h1
          rw [hc1] at hx
          exact absurd (Option.some.inj hx) (by decide)
        · rcases hgoodch (k - pre.length) (by omega) (by omega) with ⟨c, hm, hcc2⟩
          rw [show pre.length + (k - pre.length) = k from by omega] at hcc2
          rw [hcc2] at hx
          exact (hgood c hm).1 (Option.some.inj hx)
      · intro k hk hk2
        rcases hgoodch (k - pre.length) (by omega) (by omega) with ⟨c, hm, hcc2⟩
        rw [show pre.length + (k - pre.length) = k from by omega] at hcc2
        rw [hcc2]
        exact ⟨fun hx => (hgood c hm).2.1 (Option.some.inj hx),
               fun hx => (hgood c hm).2.2 (Option.some.inj hx)⟩
    have hserr : scanLoopF sql (sql.length + 1) pre.length =
        Except.error (ParseErr.invalidNameChar (pre.length + (good.length + 2))) :=
      scanLoopF_brace_err_at sql sql.length pre.length _ (by omega) hfix hc0 hcc hbr hbs
    have herr0 := scanReach_err sql 0 pre.length hreach _ hserr
    apply parse_scan_err
    rw [scanParams]
    exact herr0
  · intro sql raws hscan hnum
    rcases numberParams_err raws 0 [] hnum with ⟨pos, hnp⟩
    simp [parse, hscan, hnp, isErr]

/-- C8 witness: the statement `SELECT :{ab`, whose brace marker sits
mid-statement at position 7 and is never closed, fails with the
non-terminated error. -/
theorem claim_C8_syntax_errors_witness :
    (∀ c ∈ "ab".data, c ≠ '}' ∧ c ≠ ':' ∧ c ≠ '{')
    ∧ ScanReach ("SELECT ".data ++ ':' :: '{' :: "ab".data) 0 "SELECT ".data.length
    ∧ parse ("SELECT ".data ++ ':' :: '{' :: "ab".data) =
        Except.error (ParseErr.nonTerminated ("SELECT ".data ++ ':' :: '{' :: "ab".data).length) := by
  have hreach : ScanReach ("SELECT ".data ++ ':' :: '{' :: "ab".data) 0 "SELECT ".data.length :=
    ScanReach.next 0 6 7 (ScanReach.next 0 5 6 (ScanReach.next 0 4 5 (ScanReach.next 0 3 4
      (ScanReach.next 0 2 3 (ScanReach.next 0 1 2 (ScanReach.next 0 0 1 (ScanReach.refl 0)
        (by decide)) (by decide)) (by decide)) (by decide)) (by decide)) (by decide))
      (by decide)
  exact ⟨by decide, hreach, claim_C8_syntax_errors.1 "SELECT ".data "ab".data (by decide) hreach⟩

end PgQueryExec
